import Mathlib

/-! # Julia set renderer: a shallow embedding of `src/julia.c`

The C program renders an `N × N` RGBA image of the Julia set of
`z ↦ z² + c`, `c = (-0.4, 0.6)`, by escape-time iteration with smooth
colouring.

Modelling conventions.

* `double` values are elements of an arbitrary linearly ordered field `α`
  with a floor function (`ℚ` for evaluation, `ℝ` for the analytic claims):
  the arithmetic is exact, rounding is not modelled.  These are the finite
  values; the program stays on them for every `N ≥ 2`.
* At `N = 1`, which the guard of `main` accepts, line 111 divides by zero.
  The namespace `Ieee` repeats the per-pixel code on `double`s that may be
  infinite or NaN; for `N ≥ 2` its loop is the finite one
  (`Ieee.escapeLoop_of_two_le`).
* The libm functions `sqrt` and `log` are parameters of every definition
  that calls them.
* `int` values are `ℤ` at the command line and `ℕ` once the guard of `main`
  has established that they are positive; no `int` or `size_t` expression of
  the program can wrap for a 32-bit `int` `N` (see `pixelOffset_lt_size_t`).
* The image buffer is a list of cells, `none` for a byte that `malloc`
  returned and nobody has stored to yet; the render loop is the list of its
  byte stores in program order.
-/

namespace Julia

/-! ## Constants of `main` (lines 105–115) -/

section Constants

variable (α : Type) [LinearOrderedField α]

/-- Line 105: `const double cr = -0.4;` -/
def cr : α := -0.4

/-- Line 106: `const double ci = 0.6;` -/
def ci : α := 0.6

/-- Line 108: `xmin = -1.6` -/
def xmin : α := -1.6

/-- Line 108: `xmax = 1.6` -/
def xmax : α := 1.6

/-- Line 109: `ymin = -1.6` -/
def ymin : α := -1.6

/-- Line 109: `ymax = 1.6` -/
def ymax : α := 1.6

/-- Line 111: `dx = (xmax - xmin) / (N - 1)`; `N - 1` is computed in `int`.
This is the value for `N ≥ 2`.  At `N = 1` the divisor is zero and the
`double` is `+inf`, which is not a field element: see `Ieee.dx`. -/
def dx (N : ℕ) : α := (xmax α - xmin α) / (((N : ℤ) - 1 : ℤ) : α)

/-- Line 112: `dy = (ymax - ymin) / (N - 1)`, for `N ≥ 2`; at `N = 1` see
`Ieee.dy`. -/
def dy (N : ℕ) : α := (ymax α - ymin α) / (((N : ℤ) - 1 : ℤ) : α)

/-- Line 114: `const double escape2 = 4.0;` -/
def escape2 : α := 4.0

end Constants

/-! ## The escape-time loop (lines 122–139) -/

section FieldEvaluator

variable {α : Type} [LinearOrderedField α]

/-- The local variables of the inner loop: `zr`, `zi`, `zr2`, `zi2`, `i`. -/
structure Iter (α : Type) where
  zr : α
  zi : α
  zr2 : α
  zi2 : α
  i : ℕ

/-- Lines 122–130: the variables on entry to the `while` loop of pixel
`(x, y)`. -/
def start (N x y : ℕ) : Iter α :=
  let zi0 : α := ymax α - (y : α) * dy α N
  let zr : α := xmin α + (x : α) * dx α N
  let zi : α := zi0
  { zr := zr, zi := zi, zr2 := zr * zr, zi2 := zi * zi, i := 0 }

/-- Line 132: the loop test `i < M && (zr2 + zi2) <= escape2`. -/
def loopCond (M : ℕ) (s : Iter α) : Prop :=
  s.i < M ∧ s.zr2 + s.zi2 ≤ escape2 α

instance (M : ℕ) (s : Iter α) : Decidable (loopCond M s) := by
  unfold loopCond
  exact inferInstance

/-- Lines 134–138: one pass of the loop body. -/
def loopBody (s : Iter α) : Iter α :=
  let zi : α := (s.zr + s.zr) * s.zi + ci α
  let zr : α := (s.zr2 - s.zi2) + cr α
  { zr := zr, zi := zi, zr2 := zr * zr, zi2 := zi * zi, i := s.i + 1 }

/-- Lines 132–139: the `while` loop, run for at most `fuel` passes. -/
def whileLoop (M : ℕ) : ℕ → Iter α → Iter α
  | 0, s => s
  | fuel + 1, s => if loopCond M s then whileLoop M fuel (loopBody s) else s

/-- Lines 122–139 for pixel `(x, y)`: the variables at loop exit.  `M`
passes of fuel are enough (`whileLoop_exit`). -/
def escapeLoop (N M x y : ℕ) : Iter α :=
  whileLoop M M (start N x y)

/-! ### The orbit as the specification words it -/

/-- The map `z ↦ z² + c` on pairs `(re, im)`, with `c = (-0.4, 0.6)`. -/
def specStep (z : α × α) : α × α :=
  (z.1 ^ 2 - z.2 ^ 2 + (-0.4), 2 * z.1 * z.2 + 0.6)

/-- The orbit `z_0 = z0`, `z_{k+1} = z_k² + c`. -/
def specOrbit (z0 : α × α) : ℕ → α × α
  | 0 => z0
  | k + 1 => specStep (specOrbit z0 k)

/-- The squared magnitude `|z|²`. -/
def normSq (z : α × α) : α := z.1 ^ 2 + z.2 ^ 2

/-- The sample point of pixel `(x, y)`: `(xmin + x·dx, ymax − y·dy)`. -/
def specSample (N x y : ℕ) : α × α :=
  (-1.6 + (x : α) * ((1.6 - (-1.6)) / ((N : α) - 1)),
    1.6 - (y : α) * ((1.6 - (-1.6)) / ((N : α) - 1)))

end FieldEvaluator

/-! ## The colour mapper (lines 24–48 and 143–162) -/

section ColorMapper

variable {α : Type} [LinearOrderedField α] [FloorRing α]

/-- Conversion of a `double` to an integer type: the fractional part is
discarded (truncation toward zero). -/
def truncate (x : α) : ℤ := if 0 ≤ x then ⌊x⌋ else ⌈x⌉

/-- Lines 45–47: the cast `(uint8_t)x`.  For `0 ≤ x < 256` this is the
truncation of `x`; outside that range the value is reduced modulo `256`, as
the conversion through `int` does on the build target. -/
def toUint8 (x : α) : ℕ := (truncate x % 256).toNat

/-- Lines 29–43: the components `(rf, gf, bf)` selected by the `switch`.
`i` is `floor(h * 6.0)`, an integral `double`, so `(int)i` is that integer;
`%` is C's remainder (sign of the dividend), `Int.tmod`. -/
def hsvComponents (h s v : α) : α × α × α :=
  let i : ℤ := ⌊h * 6.0⌋
  let f : α := h * 6.0 - (i : α)
  let p : α := v * (1.0 - s)
  let q : α := v * (1.0 - f * s)
  let t : α := v * (1.0 - (1.0 - f) * s)
  if Int.tmod i 6 = 0 then (v, t, p)
  else if Int.tmod i 6 = 1 then (q, v, p)
  else if Int.tmod i 6 = 2 then (p, v, t)
  else if Int.tmod i 6 = 3 then (p, q, v)
  else if Int.tmod i 6 = 4 then (t, p, v)
  else (v, p, q)

/-- Lines 24–48: `hsv_to_rgb`, returning the bytes stored through `r`, `g`
and `b`. -/
def hsv_to_rgb (h s v : α) : ℕ × ℕ × ℕ :=
  let c : α × α × α := hsvComponents h s v
  (toUint8 (c.1 * 255.0), toUint8 (c.2.1 * 255.0), toUint8 (c.2.2 * 255.0))

/-- The libm function `fmod(x, y)`: `x - n * y`, where `n` is `x / y` with its
fractional part discarded. -/
def fmod (x y : α) : α := x - (truncate (x / y) : α) * y

/-- Line 115: `inv_log2 = 1.0 / log(2.0)`. -/
def inv_log2 (log : α → α) : α := 1.0 / log 2.0

/-- Lines 150–151: the smooth iteration count `nu` of an escaped pixel. -/
def smoothNu (sqrt log : α → α) (i : ℕ) (zr2 zi2 : α) : α :=
  let mag : α := sqrt (zr2 + zi2)
  (i : α) + 1.0 - log (log mag) * inv_log2 log

/-- Lines 153–154: the two clamping statements applied to a finite `t`.  Both
tests are false on NaN, which is not a field element: see `Ieee.clampT`. -/
def clampT (t : α) : α :=
  let t1 : α := if t < 0.0 then 0.0 else t
  if t1 > 1.0 then 1.0 else t1

/-- Lines 152–154: the value `t` handed to the hue and value formulas. -/
def smoothT (sqrt log : α → α) (M i : ℕ) (zr2 zi2 : α) : α :=
  clampT (smoothNu sqrt log i zr2 zi2 / (M : α))

/-- Line 156: `h = fmod(0.66 + 1.4 * t, 1.0)`. -/
def hue (t : α) : α := fmod (0.66 + 1.4 * t) 1.0

/-- Line 157: `s = 0.85`. -/
def saturation (α : Type) [LinearOrderedField α] : α := 0.85

/-- Line 158: `v = 0.15 + 0.95 * t`. -/
def value (t : α) : α := 0.15 + 0.95 * t

/-- The four bytes `p[0]`, `p[1]`, `p[2]`, `p[3]` of one pixel. -/
structure Pixel where
  r : ℕ
  g : ℕ
  b : ℕ
  a : ℕ
deriving DecidableEq, Repr

/-- Lines 143–162: the pixel written for the loop-exit variables `s`. -/
def colour (sqrt log : α → α) (M : ℕ) (s : Iter α) : Pixel :=
  if s.i ≥ M then
    { r := 0, g := 0, b := 0, a := 255 }
  else
    let t : α := smoothT sqrt log M s.i s.zr2 s.zi2
    let rgb : ℕ × ℕ × ℕ := hsv_to_rgb (hue t) (saturation α) (value t)
    { r := rgb.1, g := rgb.2.1, b := rgb.2.2, a := 255 }

/-- Lines 122–162: the pixel computed for `(x, y)`. -/
def pixel (sqrt log : α → α) (N M x y : ℕ) : Pixel :=
  colour sqrt log M (escapeLoop N M x y)

end ColorMapper

/-! ## The render driver and `main` (lines 93–171) -/

section Driver

variable {α : Type} [LinearOrderedField α] [FloorRing α]

/-- Line 141: the byte offset `((size_t)y * N + x) * 4` of pixel `(x, y)`. -/
def pixelOffset (N x y : ℕ) : ℕ := (y * N + x) * 4

/-- One byte store `img[addr] = byte`. -/
structure Store where
  addr : ℕ
  byte : ℕ
deriving DecidableEq, Repr

/-- Lines 141–162: the four stores through `p` that write one pixel, listed as
`p[0]`, `p[1]`, `p[2]`, `p[3]`.  The chained assignment of line 145 leaves the
order of its three stores open; they go to distinct addresses. -/
def pixelStores (N x y : ℕ) (px : Pixel) : List Store :=
  [ { addr := pixelOffset N x y + 0, byte := px.r },
    { addr := pixelOffset N x y + 1, byte := px.g },
    { addr := pixelOffset N x y + 2, byte := px.b },
    { addr := pixelOffset N x y + 3, byte := px.a } ]

/-- Lines 120 and 123: the pairs `(x, y)` in the order in which the two
nested `for` loops reach the loop body. -/
def visits (N : ℕ) : List (ℕ × ℕ) :=
  (List.range N).flatMap fun y => (List.range N).map fun x => (x, y)

/-- Lines 120–164: every byte store of the render loop, in program order. -/
def renderStores (sqrt log : α → α) (N M : ℕ) : List Store :=
  (visits N).flatMap fun xy => pixelStores N xy.1 xy.2 (pixel sqrt log N M xy.1 xy.2)

/-- The image buffer: one cell per byte, `none` while nothing has been stored
to it since `malloc`. -/
abbrev Buffer := List (Option ℕ)

/-- Line 117: the buffer `malloc((size_t)N * N * 4)` returns. -/
def mallocBuffer (N : ℕ) : Buffer := List.replicate (N * N * 4) none

/-- The effect of one store on the buffer. -/
def applyStore (img : Buffer) (s : Store) : Buffer := img.set s.addr (some s.byte)

/-- Lines 117–164: the buffer after the render loop. -/
def render (sqrt log : α → α) (N M : ℕ) : Buffer :=
  (renderStores sqrt log N M).foldl applyStore (mallocBuffer N)

/-- What a run of `main` does that is visible from outside its arithmetic. -/
inductive Event where
  /-- Line 101: `fprintf(stderr, "Invalid N or M\n")`. -/
  | invalidMessage : Event
  /-- Line 117: the call `malloc(size)`. -/
  | malloc (size : ℕ) : Event
  /-- A byte store of the render loop. -/
  | store (s : Store) : Event
  /-- Line 166: the call `write_png(out, w, h, img)`. -/
  | writePng (w h : ℤ) (img : Buffer) : Event
  /-- Line 167: `free(img)`. -/
  | free : Event
  /-- Line 169: the `printf` that reports success. -/
  | wroteMessage : Event
deriving DecidableEq, Repr

/-- The exit status of a run and its events in order. -/
structure Run where
  status : ℤ
  trace : List Event
deriving DecidableEq, Repr

/-- Lines 93–171: `main`.  `argN` and `argM` are what `atoi` returns for
`argv[1]` and `argv[2]`, `none` when the argument is absent; `mallocOk` says
whether `malloc` returns a buffer, `pngOk` whether `write_png` returns
(it calls `exit(1)` when it cannot write). -/
def main (sqrt log : α → α) (argN argM : Option ℤ) (mallocOk pngOk : Bool) : Run :=
  let N : ℤ := argN.getD 1024
  let M : ℤ := argM.getD 1024
  if N ≤ 0 ∨ M ≤ 0 then
    { status := 1, trace := [Event.invalidMessage] }
  else if mallocOk = false then
    { status := 1, trace := [Event.malloc (N.toNat * N.toNat * 4)] }
  else
    let body : List Event :=
      Event.malloc (N.toNat * N.toNat * 4) ::
        ((renderStores sqrt log N.toNat M.toNat).map Event.store ++
          [Event.writePng N N (render sqrt log N.toNat M.toNat)])
    if pngOk = false then
      { status := 1, trace := body }
    else
      { status := 0, trace := body ++ [Event.free, Event.wroteMessage] }

end Driver

/-! ## The work done by the loops (lines 120–139) -/

section Work

variable {α : Type} [LinearOrderedField α]

/-- Lines 132–139: the number of times the body of the `while` loop runs,
with at most `fuel` passes allowed. -/
def whilePasses (M : ℕ) : ℕ → Iter α → ℕ
  | 0, _ => 0
  | fuel + 1, s => if loopCond M s then whilePasses M fuel (loopBody s) + 1 else 0

/-- Lines 120–139: the number of inner-loop passes of the whole render, summed
over the pixels in the order the `for` loops visit them. -/
def renderPasses (α : Type) [LinearOrderedField α] (N M : ℕ) : ℕ :=
  ((visits N).map fun xy => whilePasses M M (start N xy.1 xy.2 : Iter α)).sum

end Work

/-! ## The special values of `double`

The definitions above compute on finite values.  The one place where the
program leaves them is the division `(xmax - xmin) / (N - 1)` at `N = 1`,
which the guard of line 99 lets through: IEEE arithmetic gives `+inf` there,
then `0 * inf = NaN`.  The definitions below repeat lines 24–48 and 111–162 on
values that may be infinite or NaN. -/

namespace Ieee

/-- A `double`: a finite value, an infinity, or NaN.  Finite arithmetic is
exact and the two zeros are identified. -/
inductive Dbl (α : Type) where
  | fin (x : α) : Dbl α
  | pinf : Dbl α
  | ninf : Dbl α
  | nan : Dbl α
deriving DecidableEq, Repr

section Arithmetic

variable {α : Type} [LinearOrderedField α] [FloorRing α]

/-- Unary minus. -/
def Dbl.neg : Dbl α → Dbl α
  | Dbl.fin x => Dbl.fin (-x)
  | Dbl.pinf => Dbl.ninf
  | Dbl.ninf => Dbl.pinf
  | Dbl.nan => Dbl.nan

/-- Addition: `inf + (-inf)` and every sum with a NaN operand are NaN. -/
def Dbl.add : Dbl α → Dbl α → Dbl α
  | Dbl.fin x, Dbl.fin y => Dbl.fin (x + y)
  | Dbl.fin _, Dbl.pinf => Dbl.pinf
  | Dbl.fin _, Dbl.ninf => Dbl.ninf
  | Dbl.pinf, Dbl.fin _ => Dbl.pinf
  | Dbl.pinf, Dbl.pinf => Dbl.pinf
  | Dbl.ninf, Dbl.fin _ => Dbl.ninf
  | Dbl.ninf, Dbl.ninf => Dbl.ninf
  | _, _ => Dbl.nan

/-- Subtraction, `x + (-y)`. -/
def Dbl.sub (x y : Dbl α) : Dbl α := Dbl.add x (Dbl.neg y)

/-- Multiplication: `0 * inf` and every product with a NaN operand are NaN. -/
def Dbl.mul : Dbl α → Dbl α → Dbl α
  | Dbl.fin x, Dbl.fin y => Dbl.fin (x * y)
  | Dbl.fin x, Dbl.pinf => if 0 < x then Dbl.pinf else if x < 0 then Dbl.ninf else Dbl.nan
  | Dbl.fin x, Dbl.ninf => if 0 < x then Dbl.ninf else if x < 0 then Dbl.pinf else Dbl.nan
  | Dbl.pinf, Dbl.fin y => if 0 < y then Dbl.pinf else if y < 0 then Dbl.ninf else Dbl.nan
  | Dbl.ninf, Dbl.fin y => if 0 < y then Dbl.ninf else if y < 0 then Dbl.pinf else Dbl.nan
  | Dbl.pinf, Dbl.pinf => Dbl.pinf
  | Dbl.ninf, Dbl.ninf => Dbl.pinf
  | Dbl.pinf, Dbl.ninf => Dbl.ninf
  | Dbl.ninf, Dbl.pinf => Dbl.ninf
  | _, _ => Dbl.nan

/-- Division.  A zero divisor is the positive zero (the only zero divisor of
the program is the `int` value `N - 1 = 0`): a non-zero finite value over it
is the infinity of its sign, `0 / 0` and `inf / inf` are NaN. -/
def Dbl.div : Dbl α → Dbl α → Dbl α
  | Dbl.fin x, Dbl.fin y =>
    if y = 0 then (if 0 < x then Dbl.pinf else if x < 0 then Dbl.ninf else Dbl.nan)
    else Dbl.fin (x / y)
  | Dbl.fin _, Dbl.pinf => Dbl.fin 0
  | Dbl.fin _, Dbl.ninf => Dbl.fin 0
  | Dbl.pinf, Dbl.fin y => if 0 ≤ y then Dbl.pinf else Dbl.ninf
  | Dbl.ninf, Dbl.fin y => if 0 ≤ y then Dbl.ninf else Dbl.pinf
  | _, _ => Dbl.nan

instance : Add (Dbl α) := ⟨Dbl.add⟩

instance : Sub (Dbl α) := ⟨Dbl.sub⟩

instance : Mul (Dbl α) := ⟨Dbl.mul⟩

instance : Div (Dbl α) := ⟨Dbl.div⟩

/-- The comparison `x <= y`: false when an operand is NaN. -/
def Dbl.le : Dbl α → Dbl α → Bool
  | Dbl.nan, _ => false
  | _, Dbl.nan => false
  | Dbl.fin x, Dbl.fin y => decide (x ≤ y)
  | Dbl.ninf, _ => true
  | _, Dbl.pinf => true
  | _, _ => false

/-- The comparison `x < y`: false when an operand is NaN. -/
def Dbl.lt : Dbl α → Dbl α → Bool
  | Dbl.nan, _ => false
  | _, Dbl.nan => false
  | Dbl.fin x, Dbl.fin y => decide (x < y)
  | Dbl.ninf, Dbl.ninf => false
  | Dbl.pinf, Dbl.pinf => false
  | Dbl.ninf, _ => true
  | _, Dbl.pinf => true
  | _, _ => false

/-- The libm function `floor`: infinities and NaN are returned unchanged. -/
def Dbl.floor : Dbl α → Dbl α
  | Dbl.fin x => Dbl.fin ((⌊x⌋ : ℤ) : α)
  | d => d

/-- The libm function `fmod(x, y)`: NaN when `x` is infinite, `y` is zero or
an operand is NaN; `x` when `y` is infinite. -/
def Dbl.fmod : Dbl α → Dbl α → Dbl α
  | Dbl.fin x, Dbl.fin y => if y = 0 then Dbl.nan else Dbl.fin (Julia.fmod x y)
  | Dbl.fin x, Dbl.pinf => Dbl.fin x
  | Dbl.fin x, Dbl.ninf => Dbl.fin x
  | _, _ => Dbl.nan

/-- The libm function `sqrt`, given its values `f` on finite non-negative
arguments: NaN for a negative argument, for `-inf` and for NaN. -/
def Dbl.sqrt (f : α → α) : Dbl α → Dbl α
  | Dbl.fin x => if x < 0 then Dbl.nan else Dbl.fin (f x)
  | Dbl.pinf => Dbl.pinf
  | _ => Dbl.nan

/-- The libm function `log`, given its values `f` on finite positive
arguments: `-inf` at zero, NaN for a negative argument, for `-inf` and for
NaN. -/
def Dbl.log (f : α → α) : Dbl α → Dbl α
  | Dbl.fin x => if x < 0 then Dbl.nan else if x = 0 then Dbl.ninf else Dbl.fin (f x)
  | Dbl.pinf => Dbl.pinf
  | _ => Dbl.nan

/-- The cast `(int)x`: truncation of a finite value; the conversion of an
infinity or a NaN is undefined in C, `undef` stands for what it yields. -/
def Dbl.toInt (undef : ℤ) : Dbl α → ℤ
  | Dbl.fin x => truncate x
  | _ => undef

/-- The cast `(uint8_t)x`: `Julia.toUint8` on a finite value; the conversion
of an infinity or a NaN is undefined in C, `undef` stands for what it
yields. -/
def Dbl.toUint8 (undef : ℕ) : Dbl α → ℕ
  | Dbl.fin x => Julia.toUint8 x
  | _ => undef

end Arithmetic

section Program

variable {α : Type} [LinearOrderedField α] [FloorRing α]

/-- Line 111: `dx = (xmax - xmin) / (N - 1)`. -/
def dx (N : ℕ) : Dbl α :=
  (Dbl.fin (xmax α) - Dbl.fin (xmin α)) / Dbl.fin ((((N : ℤ) - 1 : ℤ) : ℤ) : α)

/-- Line 112: `dy = (ymax - ymin) / (N - 1)`. -/
def dy (N : ℕ) : Dbl α :=
  (Dbl.fin (ymax α) - Dbl.fin (ymin α)) / Dbl.fin ((((N : ℤ) - 1 : ℤ) : ℤ) : α)

/-- The local variables of the inner loop. -/
structure Iter (α : Type) where
  zr : Dbl α
  zi : Dbl α
  zr2 : Dbl α
  zi2 : Dbl α
  i : ℕ

/-- Lines 122–130: the variables on entry to the `while` loop. -/
def start (N x y : ℕ) : Iter α :=
  let zi0 : Dbl α := Dbl.fin (ymax α) - Dbl.fin (y : α) * dy N
  let zr : Dbl α := Dbl.fin (xmin α) + Dbl.fin (x : α) * dx N
  let zi : Dbl α := zi0
  { zr := zr, zi := zi, zr2 := zr * zr, zi2 := zi * zi, i := 0 }

/-- Line 132: the loop test `i < M && (zr2 + zi2) <= escape2`. -/
def loopCond (M : ℕ) (s : Iter α) : Prop :=
  s.i < M ∧ Dbl.le (s.zr2 + s.zi2) (Dbl.fin (escape2 α)) = true

instance (M : ℕ) (s : Iter α) : Decidable (loopCond M s) := by
  unfold loopCond
  exact inferInstance

/-- Lines 134–138: one pass of the loop body. -/
def loopBody (s : Iter α) : Iter α :=
  let zi : Dbl α := (s.zr + s.zr) * s.zi + Dbl.fin (ci α)
  let zr : Dbl α := (s.zr2 - s.zi2) + Dbl.fin (cr α)
  { zr := zr, zi := zi, zr2 := zr * zr, zi2 := zi * zi, i := s.i + 1 }

/-- Lines 132–139: the `while` loop, run for at most `fuel` passes. -/
def whileLoop (M : ℕ) : ℕ → Iter α → Iter α
  | 0, s => s
  | fuel + 1, s => if loopCond M s then whileLoop M fuel (loopBody s) else s

/-- Lines 122–139 for pixel `(x, y)`: the variables at loop exit. -/
def escapeLoop (N M x y : ℕ) : Iter α :=
  whileLoop M M (start N x y)

/-- Line 115: `inv_log2 = 1.0 / log(2.0)`. -/
def inv_log2 (log : α → α) : Dbl α := Dbl.fin 1.0 / Dbl.log log (Dbl.fin 2.0)

/-- Lines 150–151: `mag` and `nu`. -/
def smoothNu (sqrt log : α → α) (i : ℕ) (zr2 zi2 : Dbl α) : Dbl α :=
  let mag : Dbl α := Dbl.sqrt sqrt (zr2 + zi2)
  Dbl.fin (i : α) + Dbl.fin 1.0 - Dbl.log log (Dbl.log log mag) * inv_log2 log

/-- Lines 153–154: `if (t < 0.0) t = 0.0; if (t > 1.0) t = 1.0;`. -/
def clampT (t : Dbl α) : Dbl α :=
  let t1 : Dbl α := if Dbl.lt t (Dbl.fin 0.0) = true then Dbl.fin 0.0 else t
  if Dbl.lt (Dbl.fin 1.0) t1 = true then Dbl.fin 1.0 else t1

/-- Lines 152–154: the value `t` handed to the hue and value formulas. -/
def smoothT (sqrt log : α → α) (M i : ℕ) (zr2 zi2 : Dbl α) : Dbl α :=
  clampT (smoothNu sqrt log i zr2 zi2 / Dbl.fin (M : α))

/-- Line 156: `h = fmod(0.66 + 1.4 * t, 1.0)`. -/
def hue (t : Dbl α) : Dbl α := Dbl.fmod (Dbl.fin 0.66 + Dbl.fin 1.4 * t) (Dbl.fin 1.0)

/-- Line 158: `v = 0.15 + 0.95 * t`. -/
def value (t : Dbl α) : Dbl α := Dbl.fin 0.15 + Dbl.fin 0.95 * t

/-- Lines 29–43: the components `(rf, gf, bf)` selected by the `switch`;
`undefInt` is what `(int)i` yields when `i` is not finite. -/
def hsvComponents (undefInt : ℤ) (h s v : Dbl α) : Dbl α × Dbl α × Dbl α :=
  let i : Dbl α := Dbl.floor (h * Dbl.fin 6.0)
  let f : Dbl α := h * Dbl.fin 6.0 - i
  let p : Dbl α := v * (Dbl.fin 1.0 - s)
  let q : Dbl α := v * (Dbl.fin 1.0 - f * s)
  let t : Dbl α := v * (Dbl.fin 1.0 - (Dbl.fin 1.0 - f) * s)
  if Int.tmod (Dbl.toInt undefInt i) 6 = 0 then (v, t, p)
  else if Int.tmod (Dbl.toInt undefInt i) 6 = 1 then (q, v, p)
  else if Int.tmod (Dbl.toInt undefInt i) 6 = 2 then (p, v, t)
  else if Int.tmod (Dbl.toInt undefInt i) 6 = 3 then (p, q, v)
  else if Int.tmod (Dbl.toInt undefInt i) 6 = 4 then (t, p, v)
  else (v, p, q)

/-- Lines 24–48: `hsv_to_rgb`; `undefByte` is what `(uint8_t)x` yields when
`x` is not finite. -/
def hsv_to_rgb (undefInt : ℤ) (undefByte : ℕ) (h s v : Dbl α) : ℕ × ℕ × ℕ :=
  let c : Dbl α × Dbl α × Dbl α := hsvComponents undefInt h s v
  (Dbl.toUint8 undefByte (c.1 * Dbl.fin 255.0), Dbl.toUint8 undefByte (c.2.1 * Dbl.fin 255.0),
    Dbl.toUint8 undefByte (c.2.2 * Dbl.fin 255.0))

/-- Lines 143–162: the pixel written for the loop-exit variables `s`. -/
def colour (sqrt log : α → α) (undefInt : ℤ) (undefByte : ℕ) (M : ℕ) (s : Iter α) : Pixel :=
  if s.i ≥ M then
    { r := 0, g := 0, b := 0, a := 255 }
  else
    let t : Dbl α := smoothT sqrt log M s.i s.zr2 s.zi2
    let rgb : ℕ × ℕ × ℕ :=
      hsv_to_rgb undefInt undefByte (hue t) (Dbl.fin (saturation α)) (value t)
    { r := rgb.1, g := rgb.2.1, b := rgb.2.2, a := 255 }

/-- Lines 122–162: the pixel computed for `(x, y)`. -/
def pixel (sqrt log : α → α) (undefInt : ℤ) (undefByte : ℕ) (N M x y : ℕ) : Pixel :=
  colour sqrt log undefInt undefByte M (escapeLoop N M x y)

/-- The loop variables of the finite-value model, as `double`s. -/
def Iter.ofFinite (s : Julia.Iter α) : Iter α :=
  { zr := Dbl.fin s.zr, zi := Dbl.fin s.zi, zr2 := Dbl.fin s.zr2, zi2 := Dbl.fin s.zi2,
    i := s.i }

end Program

end Ieee

/-! ## Proofs -/

section FieldEvaluatorProofs

variable {α : Type} [LinearOrderedField α]

theorem loopBody_i (s : Iter α) : (loopBody s).i = s.i + 1 := rfl

theorem iterate_loopBody_i (k : ℕ) (s : Iter α) : (loopBody^[k] s).i = s.i + k := by
  induction k generalizing s with
  | zero => rfl
  | succ k ih =>
    rw [Function.iterate_succ_apply, ih, loopBody_i]
    omega

/-- The loop with `fuel` passes available makes some number `n ≤ fuel` of
passes, each of them with the loop test true, and stops either because the
test is false or because the fuel is spent. -/
theorem whileLoop_passes (M : ℕ) (fuel : ℕ) (s : Iter α) :
    ∃ n, n ≤ fuel ∧ whileLoop M fuel s = loopBody^[n] s ∧
      (∀ k, k < n → loopCond M (loopBody^[k] s)) ∧
      (n < fuel → ¬ loopCond M (loopBody^[n] s)) := by
  induction fuel generalizing s with
  | zero => exact ⟨0, le_refl 0, rfl, fun k hk => absurd hk (Nat.not_lt_zero k), fun h => absurd h (lt_irrefl 0)⟩
  | succ fuel ih =>
    by_cases hc : loopCond M s
    · obtain ⟨n, hn, heq, hlt, hex⟩ := ih (loopBody s)
      refine ⟨n + 1, Nat.succ_le_succ hn, ?_, ?_, ?_⟩
      · simp only [whileLoop, if_pos hc, heq, Function.iterate_succ_apply]
      · intro k hk
        cases k with
        | zero => exact hc
        | succ k =>
          rw [Function.iterate_succ_apply]
          exact hlt k (Nat.lt_of_succ_lt_succ hk)
      · intro h
        rw [Function.iterate_succ_apply]
        exact hex (Nat.lt_of_succ_lt_succ h)
    · refine ⟨0, Nat.zero_le _, ?_, fun k hk => absurd hk (Nat.not_lt_zero k), fun _ => hc⟩
      simp only [whileLoop, if_neg hc, Function.iterate_zero, id_eq]

/-- With `M - s.i` passes of fuel the loop has really exited: its test is
false on the state it returns. -/
theorem whileLoop_exit (M : ℕ) (fuel : ℕ) (s : Iter α) (h : M ≤ s.i + fuel) :
    ¬ loopCond M (whileLoop M fuel s) := by
  obtain ⟨n, hn, heq, -, hex⟩ := whileLoop_passes M fuel s
  rw [heq]
  rcases Nat.lt_or_ge n fuel with hlt | hge
  · exact hex hlt
  · intro hc
    have h1 := hc.1
    rw [iterate_loopBody_i] at h1
    omega

/-- Loop invariant: after `k` passes the variables hold the `k`-th point of
the orbit, its cached squares, and the count `k`. -/
theorem iterate_loopBody_start (N x y : ℕ) (k : ℕ) :
    loopBody^[k] (start N x y : Iter α) =
      { zr := (specOrbit (specSample N x y) k).1, zi := (specOrbit (specSample N x y) k).2,
        zr2 := (specOrbit (specSample N x y) k).1 ^ 2,
        zi2 := (specOrbit (specSample N x y) k).2 ^ 2, i := k } := by
  induction k with
  | zero =>
    simp only [Function.iterate_zero, id_eq, start, specOrbit, specSample, xmin, xmax, ymin,
      ymax, dx, dy, Int.cast_sub, Int.cast_natCast, Int.cast_one, pow_two]
  | succ k ih =>
    rw [Function.iterate_succ_apply', ih]
    simp only [loopBody, specOrbit, specStep, ci, cr, Iter.mk.injEq, and_true]
    refine ⟨trivial, ?_, ?_, ?_⟩
    · ring
    · ring
    · ring

/-- The loop test on the state after `k` passes, in terms of the orbit. -/
theorem loopCond_iterate_start (N M x y : ℕ) (k : ℕ) :
    loopCond M (loopBody^[k] (start N x y : Iter α)) ↔
      k < M ∧ normSq (specOrbit (specSample N x y : α × α) k) ≤ 4 := by
  rw [iterate_loopBody_start]
  simp only [loopCond, escape2, normSq]
  norm_num

/-- What the loop of pixel `(x, y)` returns: it makes `n ≤ M` passes, leaves
the `n`-th orbit point in its variables, no earlier orbit point was outside
the escape circle, and when `n < M` the `n`-th one is. -/
theorem escapeLoop_eq (N M x y : ℕ) :
    ∃ n, n ≤ M ∧
      (escapeLoop N M x y : Iter α) = loopBody^[n] (start N x y) ∧
      (∀ k, k < n → loopCond M (loopBody^[k] (start N x y : Iter α))) ∧
      (∀ k, k < n → normSq (specOrbit (specSample N x y : α × α) k) ≤ 4) ∧
      (n < M → 4 < normSq (specOrbit (specSample N x y : α × α) n)) := by
  obtain ⟨n, hn, heq, hlt, hex⟩ := whileLoop_passes M M (start N x y : Iter α)
  refine ⟨n, hn, heq, hlt, fun k hk => ((loopCond_iterate_start N M x y k).1 (hlt k hk)).2, ?_⟩
  intro hnM
  have h := hex hnM
  rw [loopCond_iterate_start] at h
  by_contra hle
  exact h ⟨hnM, not_lt.1 hle⟩

/-- The count at loop exit is the number of passes made. -/
theorem escapeLoop_i_of_eq (N M x y n : ℕ)
    (h : (escapeLoop N M x y : Iter α) = loopBody^[n] (start N x y)) :
    (escapeLoop N M x y : Iter α).i = n := by
  rw [h, iterate_loopBody_i]
  simp [start]

/-- C1. Escape-time count is the first escape index: for `N ≥ 2`, `M ≥ 1`
and a pixel `(x, y)` of the image, after `k` passes of the inner loop the
variables hold the orbit point `z_k` of `z ↦ z² + c` from the pixel's sample
point, with `zr2 = zr²` and `zi2 = zi²`; the loop makes exactly `i` passes
and exits, and `i` is the least `k < M` with `|z_k|² > 4`, or `M` when there
is no such `k`. -/
theorem escape_count_is_first_escape_index (N M x y : ℕ)
    (_hN : 2 ≤ N) (_hM : 1 ≤ M) (_hx : x < N) (_hy : y < N) :
    (∀ k, loopBody^[k] (start N x y : Iter α) =
        { zr := (specOrbit (specSample N x y) k).1,
          zi := (specOrbit (specSample N x y) k).2,
          zr2 := (specOrbit (specSample N x y) k).1 ^ 2,
          zi2 := (specOrbit (specSample N x y) k).2 ^ 2, i := k }) ∧
    (escapeLoop N M x y : Iter α) =
        loopBody^[(escapeLoop N M x y : Iter α).i] (start N x y) ∧
    (∀ k, k < (escapeLoop N M x y : Iter α).i →
        loopCond M (loopBody^[k] (start N x y : Iter α))) ∧
    ¬ loopCond M (escapeLoop N M x y : Iter α) ∧
    (IsLeast {k | k < M ∧ 4 < normSq (specOrbit (specSample N x y : α × α) k)}
        (escapeLoop N M x y : Iter α).i ∨
      ((escapeLoop N M x y : Iter α).i = M ∧
        ∀ k, k < M → normSq (specOrbit (specSample N x y : α × α) k) ≤ 4)) := by
  obtain ⟨n, hn, heq, hpass, hle, hgt⟩ := @escapeLoop_eq α _ N M x y
  have hi := escapeLoop_i_of_eq N M x y n heq
  rw [hi]
  refine ⟨iterate_loopBody_start N x y, heq, hpass, ?_, ?_⟩
  · exact whileLoop_exit M M (start N x y) (by simp [start])
  · rcases Nat.lt_or_ge n M with hlt | hge
    · left
      refine ⟨⟨hlt, hgt hlt⟩, ?_⟩
      intro k hk
      by_contra hkn
      exact absurd (hle k (not_le.1 hkn)) (not_le.2 hk.2)
    · right
      have hnM : n = M := le_antisymm hn hge
      exact ⟨hnM, fun k hk => hle k (hnM ▸ hk)⟩

end FieldEvaluatorProofs


section ClampProofs

variable {α : Type} [LinearOrderedField α]

/-- The two clamping statements leave a value in `[0, 1]`. -/
theorem clampT_mem (t : α) : 0 ≤ clampT t ∧ clampT t ≤ 1 := by
  unfold clampT
  norm_num
  split_ifs <;> constructor <;> linarith

end ClampProofs

section ColorMapperProofs

variable {α : Type} [LinearOrderedField α] [FloorRing α]

theorem truncate_of_nonneg (x : α) (h : 0 ≤ x) : truncate x = ⌊x⌋ := by
  simp [truncate, h]

/-- In the range of `uint8_t` the cast is the floor. -/
theorem toUint8_of_lt (x : α) (h0 : 0 ≤ x) (h1 : x < 256) : (toUint8 x : ℤ) = ⌊x⌋ := by
  have hf0 : 0 ≤ ⌊x⌋ := Int.floor_nonneg.2 h0
  have hf1 : ⌊x⌋ < 256 := by
    apply Int.floor_lt.2
    exact_mod_cast h1
  unfold toUint8
  rw [truncate_of_nonneg x h0, Int.emod_eq_of_lt hf0 hf1, Int.toNat_of_nonneg hf0]

theorem toUint8_ne_zero (x : α) (h0 : 1 ≤ x) (h1 : x < 256) : toUint8 x ≠ 0 := by
  intro h
  have h2 := toUint8_of_lt x (by linarith) h1
  rw [h] at h2
  have h3 : (1 : ℤ) ≤ ⌊x⌋ := Int.le_floor.2 (by exact_mod_cast h0)
  simp at h2
  omega

theorem fmod_one_of_nonneg (x : α) (h : 0 ≤ x) : fmod x 1.0 = Int.fract x := by
  unfold fmod
  norm_num
  rw [truncate_of_nonneg x h]
  rfl

theorem hue_mem (t : α) (h0 : 0 ≤ t) : 0 ≤ hue t ∧ hue t < 1 := by
  unfold hue
  rw [fmod_one_of_nonneg _ (by norm_num; linarith)]
  exact ⟨Int.fract_nonneg _, Int.fract_lt_one _⟩

theorem sector_mem (h : α) (h0 : 0 ≤ h) (h1 : h < 1) :
    0 ≤ ⌊h * 6.0⌋ ∧ ⌊h * 6.0⌋ ≤ 5 ∧ Int.tmod ⌊h * 6.0⌋ 6 = ⌊h * 6.0⌋ := by
  have a0 : 0 ≤ ⌊h * 6.0⌋ := Int.floor_nonneg.2 (by norm_num; linarith)
  have a1 : ⌊h * 6.0⌋ < 6 := by
    apply Int.floor_lt.2
    norm_num
    linarith
  refine ⟨a0, by omega, ?_⟩
  rw [Int.tmod_eq_emod a0 (by norm_num)]
  exact Int.emod_eq_of_lt a0 a1

/-- In every sector one of the three components is `p = v * (1 - s)`. -/
theorem hsvComponents_has_p (h s v : α) :
    (hsvComponents h s v).1 = v * (1.0 - s) ∨ (hsvComponents h s v).2.1 = v * (1.0 - s) ∨
      (hsvComponents h s v).2.2 = v * (1.0 - s) := by
  unfold hsvComponents
  simp only
  split_ifs <;> simp

/-- A colour whose `p` component quantises to a non-zero byte is not black. -/
theorem hsv_to_rgb_ne_black (h s v : α) (hp : toUint8 (v * (1.0 - s) * 255.0) ≠ 0) :
    hsv_to_rgb h s v ≠ (0, 0, 0) := by
  intro hb
  unfold hsv_to_rgb at hb
  simp only [Prod.mk.injEq] at hb
  obtain ⟨h1, h2, h3⟩ := hb
  rcases hsvComponents_has_p h s v with e | e | e
  · rw [e] at h1
    exact hp h1
  · rw [e] at h2
    exact hp h2
  · rw [e] at h3
    exact hp h3

/-- For `t` in `[0, 1]` the colour of the escaped branch is not black. -/
theorem escaped_rgb_ne_black (t : α) (h0 : 0 ≤ t) (h1 : t ≤ 1) :
    hsv_to_rgb (hue t) (saturation α) (value t) ≠ (0, 0, 0) := by
  apply hsv_to_rgb_ne_black
  apply toUint8_ne_zero
  · unfold value saturation
    norm_num
    linarith
  · unfold value saturation
    norm_num
    linarith

theorem colour_interior (sqrt log : α → α) (M : ℕ) (s : Iter α) (h : s.i ≥ M) :
    colour sqrt log M s = { r := 0, g := 0, b := 0, a := 255 } := by
  simp [colour, h]

theorem colour_escaped (sqrt log : α → α) (M : ℕ) (s : Iter α) (h : s.i < M) :
    colour sqrt log M s =
      { r := (hsv_to_rgb (hue (smoothT sqrt log M s.i s.zr2 s.zi2)) (saturation α)
              (value (smoothT sqrt log M s.i s.zr2 s.zi2))).1,
        g := (hsv_to_rgb (hue (smoothT sqrt log M s.i s.zr2 s.zi2)) (saturation α)
              (value (smoothT sqrt log M s.i s.zr2 s.zi2))).2.1,
        b := (hsv_to_rgb (hue (smoothT sqrt log M s.i s.zr2 s.zi2)) (saturation α)
              (value (smoothT sqrt log M s.i s.zr2 s.zi2))).2.2,
        a := 255 } := by
  simp [colour, not_le.2 h]

theorem colour_alpha (sqrt log : α → α) (M : ℕ) (s : Iter α) :
    (colour sqrt log M s).a = 255 := by
  unfold colour
  split_ifs <;> rfl

end ColorMapperProofs

section DriverProofs

variable {α : Type} [LinearOrderedField α] [FloorRing α]

/-- The pixel index `y * N + x` of a pixel of the image is below `N * N`. -/
theorem pixelIndex_lt (N x y : ℕ) (hx : x < N) (hy : y < N) : y * N + x < N * N := by
  have h : (y + 1) * N ≤ N * N := Nat.mul_le_mul_right N hy
  rw [Nat.add_mul, Nat.one_mul] at h
  omega

/-- The pixel index determines the pixel. -/
theorem pixelIndex_inj (N x y x' y' : ℕ) (hx : x < N) (hx' : x' < N)
    (h : y * N + x = y' * N + x') : x = x' ∧ y = y' := by
  have hN : 0 < N := Nat.lt_of_le_of_lt (Nat.zero_le x) hx
  have e1 : (y * N + x) % N = x := by
    rw [Nat.add_comm, Nat.add_mul_mod_self_right, Nat.mod_eq_of_lt hx]
  have e2 : (y' * N + x') % N = x' := by
    rw [Nat.add_comm, Nat.add_mul_mod_self_right, Nat.mod_eq_of_lt hx']
  have e3 : (y * N + x) / N = y := by
    rw [Nat.add_comm, Nat.add_mul_div_right _ _ hN, Nat.div_eq_of_lt hx, Nat.zero_add]
  have e4 : (y' * N + x') / N = y' := by
    rw [Nat.add_comm, Nat.add_mul_div_right _ _ hN, Nat.div_eq_of_lt hx', Nat.zero_add]
  rw [h] at e1 e3
  exact ⟨e1.symm.trans e2, e3.symm.trans e4⟩

/-- For a 32-bit `int` `N` neither the buffer size nor a byte address of a
pixel exceeds the range of a 64-bit `size_t`. -/
theorem pixelOffset_lt_size_t (N x y : ℕ) (hN : N < 2 ^ 31) (hx : x < N) (hy : y < N) :
    pixelOffset N x y + 3 < N * N * 4 ∧ N * N * 4 < 2 ^ 64 := by
  have h1 := pixelIndex_lt N x y hx hy
  have h2 : N * N ≤ (2 ^ 31 - 1) * (2 ^ 31 - 1) :=
    Nat.mul_le_mul (Nat.le_pred_of_lt hN) (Nat.le_pred_of_lt hN)
  unfold pixelOffset
  constructor
  · omega
  · have h3 : ((2 : ℕ) ^ 31 - 1) * (2 ^ 31 - 1) * 4 < 2 ^ 64 := by norm_num
    omega

/-- The rows `0 .. R-1` are visited in increasing order of the pixel index. -/
theorem visits_rows_index (N R : ℕ) :
    ((List.range R).flatMap fun y => (List.range N).map fun x => y * N + x) =
      List.range (R * N) := by
  induction R with
  | zero => simp
  | succ R ih =>
    rw [List.range_succ, List.flatMap_append, ih, Nat.succ_mul, List.range_add]
    simp

/-- The loops visit the pixels in increasing order of the pixel index. -/
theorem visits_index (N : ℕ) :
    (visits N).map (fun xy => xy.2 * N + xy.1) = List.range (N * N) := by
  rw [← visits_rows_index N N]
  simp [visits, List.map_flatMap, Function.comp_def]

theorem quads_range (n : ℕ) :
    ((List.range n).flatMap fun i => [i * 4 + 0, i * 4 + 1, i * 4 + 2, i * 4 + 3]) =
      List.range (n * 4) := by
  induction n with
  | zero => simp
  | succ n ih =>
    rw [List.range_succ, List.flatMap_append, ih, Nat.succ_mul]
    simp [List.range_succ]

/-- The render loop stores to the addresses `0, 1, 2, …, 4·N·N − 1`, in that
order. -/
theorem renderStores_addr (sqrt log : α → α) (N M : ℕ) :
    (renderStores sqrt log N M).map Store.addr = List.range (N * N * 4) := by
  rw [← quads_range, ← visits_index]
  simp [renderStores, pixelStores, pixelOffset, List.map_flatMap, List.flatMap_map,
    Function.comp_def]

theorem mem_visits (N x y : ℕ) : (x, y) ∈ visits N ↔ x < N ∧ y < N := by
  simp only [visits, List.mem_flatMap, List.mem_map, List.mem_range, Prod.mk.injEq]
  constructor
  · rintro ⟨b, hb, a, ha, rfl, rfl⟩
    exact ⟨ha, hb⟩
  · rintro ⟨hx, hy⟩
    exact ⟨y, hy, x, hx, rfl, rfl⟩

/-- An element of a list without duplicates occurs in it once. -/
theorem count_eq_one_of_nodup {β : Type} [BEq β] [LawfulBEq β] {l : List β} {a : β}
    (h : l.Nodup) (hm : a ∈ l) : l.count a = 1 := by
  induction l with
  | nil => exact absurd hm (List.not_mem_nil a)
  | cons b l ih =>
    rw [List.nodup_cons] at h
    rw [List.count_cons]
    rcases List.mem_cons.1 hm with rfl | hm'
    · simp [List.count_eq_zero.2 h.1]
    · have hne : b ≠ a := fun e => h.1 (e ▸ hm')
      simp [ih h.2 hm', hne]

theorem visits_nodup (N : ℕ) : (visits N).Nodup := by
  apply List.Nodup.of_map (fun xy => xy.2 * N + xy.1)
  rw [visits_index]
  exact List.nodup_range _

theorem foldl_applyStore_length (ss : List Store) (img : Buffer) :
    (ss.foldl applyStore img).length = img.length := by
  induction ss generalizing img with
  | nil => rfl
  | cons s ss ih => simp [List.foldl_cons, ih, applyStore]

/-- Stores to other addresses leave a cell as it was. -/
theorem foldl_applyStore_other (ss : List Store) (img : Buffer) (a : ℕ)
    (h : ∀ s, s ∈ ss → s.addr ≠ a) : (ss.foldl applyStore img)[a]? = img[a]? := by
  induction ss generalizing img with
  | nil => rfl
  | cons s ss ih =>
    rw [List.foldl_cons, ih _ (fun s' hs' => h s' (List.mem_cons_of_mem _ hs'))]
    unfold applyStore
    rw [List.getElem?_set]
    simp [h s (List.mem_cons_self _ _)]

/-- When no address is stored to twice, a cell holds the byte of the one store
made to it. -/
theorem foldl_applyStore_mem (ss : List Store) (img : Buffer) (s : Store)
    (hnd : (ss.map Store.addr).Nodup) (hs : s ∈ ss) (hlen : s.addr < img.length) :
    (ss.foldl applyStore img)[s.addr]? = some (some s.byte) := by
  induction ss generalizing img with
  | nil => exact absurd hs (List.not_mem_nil s)
  | cons s0 ss ih =>
    rw [List.map_cons, List.nodup_cons] at hnd
    rw [List.foldl_cons]
    rcases List.mem_cons.1 hs with rfl | hmem
    · rw [foldl_applyStore_other]
      · unfold applyStore
        rw [List.getElem?_set]
        simp [hlen]
      · intro s' hs' heq
        exact hnd.1 (heq ▸ List.mem_map_of_mem Store.addr hs')
    · apply ih _ hnd.2 hmem
      unfold applyStore
      rw [List.length_set]
      exact hlen

theorem render_length (sqrt log : α → α) (N M : ℕ) :
    (render sqrt log N M).length = N * N * 4 := by
  unfold render
  rw [foldl_applyStore_length]
  simp [mallocBuffer]

/-- After the loop a cell holds the byte of any store the loop made to it. -/
theorem render_getElem (sqrt log : α → α) (N M : ℕ) (s : Store)
    (hs : s ∈ renderStores sqrt log N M) :
    (render sqrt log N M)[s.addr]? = some (some s.byte) := by
  unfold render
  apply foldl_applyStore_mem
  · rw [renderStores_addr]
    exact List.nodup_range _
  · exact hs
  · have h : s.addr ∈ (renderStores sqrt log N M).map Store.addr :=
      List.mem_map_of_mem Store.addr hs
    rw [renderStores_addr, List.mem_range] at h
    simpa [mallocBuffer] using h

/-- The four stores of a pixel of the image are stores of the render loop. -/
theorem pixelStores_subset (sqrt log : α → α) (N M x y : ℕ) (hx : x < N) (hy : y < N)
    (s : Store) (hs : s ∈ pixelStores N x y (pixel sqrt log N M x y)) :
    s ∈ renderStores sqrt log N M := by
  unfold renderStores
  rw [List.mem_flatMap]
  exact ⟨(x, y), (mem_visits N x y).2 ⟨hx, hy⟩, hs⟩

/-- After the loop the four bytes at the offset of pixel `(x, y)` are the
pixel computed for `(x, y)`. -/
theorem render_pixel (sqrt log : α → α) (N M x y : ℕ) (hx : x < N) (hy : y < N) :
    (render sqrt log N M)[pixelOffset N x y + 0]? = some (some (pixel sqrt log N M x y).r) ∧
    (render sqrt log N M)[pixelOffset N x y + 1]? = some (some (pixel sqrt log N M x y).g) ∧
    (render sqrt log N M)[pixelOffset N x y + 2]? = some (some (pixel sqrt log N M x y).b) ∧
    (render sqrt log N M)[pixelOffset N x y + 3]? = some (some (pixel sqrt log N M x y).a) := by
  refine ⟨?_, ?_, ?_, ?_⟩
  · exact render_getElem sqrt log N M ⟨_, _⟩
      (pixelStores_subset sqrt log N M x y hx hy _ (by simp [pixelStores]))
  · exact render_getElem sqrt log N M ⟨_, _⟩
      (pixelStores_subset sqrt log N M x y hx hy _ (by simp [pixelStores]))
  · exact render_getElem sqrt log N M ⟨_, _⟩
      (pixelStores_subset sqrt log N M x y hx hy _ (by simp [pixelStores]))
  · exact render_getElem sqrt log N M ⟨_, _⟩
      (pixelStores_subset sqrt log N M x y hx hy _ (by simp [pixelStores]))

end DriverProofs

/-! ## The claims -/

section Claims

variable {α : Type} [LinearOrderedField α] [FloorRing α]

/-- C2. For `N ≥ 2`, `M ≥ 1` and every pixel, the count `i` at loop exit
satisfies `0 ≤ i ≤ M`; when the `else` branch is taken (`i ≥ M` is false) then
`i < M` and `zr2 + zi2` at exit is strictly greater than `escape2 = 4`; the
interior branch is taken exactly when `i = M`, and it is the branch that
writes the interior pixel. -/
theorem count_bounds_and_escape_magnitude (sqrt log : α → α) (N M x y : ℕ)
    (_hN : 2 ≤ N) (_hM : 1 ≤ M) (_hx : x < N) (_hy : y < N) :
    0 ≤ (escapeLoop N M x y : Iter α).i ∧ (escapeLoop N M x y : Iter α).i ≤ M ∧
    (¬ (escapeLoop N M x y : Iter α).i ≥ M →
      (escapeLoop N M x y : Iter α).i < M ∧
      escape2 α < (escapeLoop N M x y : Iter α).zr2 + (escapeLoop N M x y : Iter α).zi2 ∧
      4 < (escapeLoop N M x y : Iter α).zr2 + (escapeLoop N M x y : Iter α).zi2) ∧
    ((escapeLoop N M x y : Iter α).i ≥ M ↔ (escapeLoop N M x y : Iter α).i = M) ∧
    ((escapeLoop N M x y : Iter α).i = M →
      pixel sqrt log N M x y = { r := 0, g := 0, b := 0, a := 255 }) := by
  obtain ⟨n, hn, heq, -, -, -⟩ := @escapeLoop_eq α _ N M x y
  have hi := escapeLoop_i_of_eq N M x y n heq
  have hexit : ¬ loopCond M (escapeLoop N M x y : Iter α) :=
    whileLoop_exit M M (start N x y) (by simp [start])
  have hle : (escapeLoop N M x y : Iter α).i ≤ M := hi ▸ hn
  refine ⟨Nat.zero_le _, hle, ?_, ?_, ?_⟩
  · intro hlt
    have hlt' : (escapeLoop N M x y : Iter α).i < M := not_le.1 hlt
    have h4 : escape2 α <
        (escapeLoop N M x y : Iter α).zr2 + (escapeLoop N M x y : Iter α).zi2 := by
      by_contra hc
      exact hexit ⟨hlt', not_lt.1 hc⟩
    refine ⟨hlt', h4, ?_⟩
    have e : escape2 α = 4 := by
      unfold escape2
      norm_num
    rw [e] at h4
    exact h4
  · constructor
    · intro h
      exact le_antisymm hle h
    · intro h
      exact h.ge
  · intro h
    exact colour_interior sqrt log M _ h.ge

/-- C3. For every accepted `N` and `M` (`N ≥ 1`, `M ≥ 1`) and every pixel of
the image, the alpha byte is 255: in the pixel computed, in the interior
branch, in the escaped branch, and in the buffer cell `p[3]` after the loop. -/
theorem alpha_byte_is_255 (sqrt log : α → α) (N M x y : ℕ)
    (_hN : 1 ≤ N) (_hM : 1 ≤ M) (hx : x < N) (hy : y < N) :
    (pixel sqrt log N M x y).a = 255 ∧
    (∀ s : Iter α, s.i ≥ M → (colour sqrt log M s).a = 255) ∧
    (∀ s : Iter α, ¬ s.i ≥ M → (colour sqrt log M s).a = 255) ∧
    (render sqrt log N M)[pixelOffset N x y + 3]? = some (some 255) := by
  refine ⟨colour_alpha sqrt log M _, fun s _ => colour_alpha sqrt log M s,
    fun s _ => colour_alpha sqrt log M s, ?_⟩
  rw [(render_pixel sqrt log N M x y hx hy).2.2.2]
  exact congrArg (fun v => some (some v)) (colour_alpha sqrt log M _)

/-- C4. The count reaches the cap (`i = M`) exactly when no orbit point
`z_0 .. z_{M-1}` has squared magnitude above 4, and for such a pixel the R, G
and B bytes are 0, in the pixel computed and in the buffer after the loop. -/
theorem interior_pixel_is_black (sqrt log : α → α) (N M x y : ℕ)
    (hx : x < N) (hy : y < N) (hi : (escapeLoop N M x y : Iter α).i = M) :
    ((escapeLoop N M x y : Iter α).i = M ↔
      ∀ k, k < M → normSq (specOrbit (specSample N x y : α × α) k) ≤ 4) ∧
    (pixel sqrt log N M x y).r = 0 ∧ (pixel sqrt log N M x y).g = 0 ∧
    (pixel sqrt log N M x y).b = 0 ∧
    (render sqrt log N M)[pixelOffset N x y + 0]? = some (some 0) ∧
    (render sqrt log N M)[pixelOffset N x y + 1]? = some (some 0) ∧
    (render sqrt log N M)[pixelOffset N x y + 2]? = some (some 0) := by
  have hpx : pixel sqrt log N M x y = { r := 0, g := 0, b := 0, a := 255 } :=
    colour_interior sqrt log M _ hi.ge
  obtain ⟨h0, h1, h2, -⟩ := render_pixel sqrt log N M x y hx hy
  rw [hpx] at h0 h1 h2
  refine ⟨?_, by rw [hpx], by rw [hpx], by rw [hpx], h0, h1, h2⟩
  obtain ⟨n, hn, heq, -, hle, hgt⟩ := @escapeLoop_eq α _ N M x y
  have hin := escapeLoop_i_of_eq N M x y n heq
  rw [hin]
  constructor
  · intro h k hk
    exact hle k (h ▸ hk)
  · intro h
    by_contra hne
    have hlt : n < M := lt_of_le_of_ne hn hne
    exact absurd (h n hlt) (not_le.2 (hgt hlt))

/-- On finite values: for `t` in `[0, 1]`, `h = frac(0.66 + 1.4 t)`,
`s = 0.85`, `v = 0.15 + 0.95 t`, the bytes `hsv_to_rgb` produces are not all
zero, because one of the three components is `p = v (1 - s)` and `255 p` lies
in `[1, 256)`; so the R, G, B bytes of an escaped pixel (`i < M`) computed on
finite values are not all zero. -/
theorem escaped_pixel_is_not_black (t : α) (h0 : 0 ≤ t) (h1 : t ≤ 1)
    (sqrt log : α → α) (N M x y : ℕ) (hi : (escapeLoop N M x y : Iter α).i < M) :
    hue t = Int.fract (0.66 + 1.4 * t) ∧
    hsv_to_rgb (hue t) 0.85 (0.15 + 0.95 * t) ≠ (0, 0, 0) ∧
    ((hsvComponents (hue t) 0.85 (0.15 + 0.95 * t)).1 = (0.15 + 0.95 * t) * (1 - 0.85) ∨
      (hsvComponents (hue t) 0.85 (0.15 + 0.95 * t)).2.1 = (0.15 + 0.95 * t) * (1 - 0.85) ∨
      (hsvComponents (hue t) 0.85 (0.15 + 0.95 * t)).2.2 = (0.15 + 0.95 * t) * (1 - 0.85)) ∧
    (1 ≤ (0.15 + 0.95 * t) * (1 - 0.85) * 255 ∧ (0.15 + 0.95 * t) * (1 - 0.85) * 255 < 256) ∧
    ¬ ((pixel sqrt log N M x y).r = 0 ∧ (pixel sqrt log N M x y).g = 0 ∧
        (pixel sqrt log N M x y).b = 0) := by
  refine ⟨?_, escaped_rgb_ne_black t h0 h1, ?_, ?_, ?_⟩
  · unfold hue
    exact fmod_one_of_nonneg _ (by norm_num; linarith)
  · have e1 : (1.0 : α) = 1 := by norm_num
    have h := hsvComponents_has_p (hue t) (0.85 : α) (0.15 + 0.95 * t)
    rw [e1] at h
    exact h
  · constructor
    · norm_num
      linarith
    · norm_num
      linarith
  · rintro ⟨hr, hg, hb⟩
    unfold pixel at hr hg hb
    rw [colour_escaped sqrt log M _ hi] at hr hg hb
    have hc := clampT_mem (smoothNu sqrt log (escapeLoop N M x y : Iter α).i
      (escapeLoop N M x y : Iter α).zr2 (escapeLoop N M x y : Iter α).zi2 / (M : α))
    exact escaped_rgb_ne_black _ hc.1 hc.2 (Prod.ext hr (Prod.ext hg hb))

/-- On finite values: the value `t` passed to the hue and value formulas is
the clamped `nu / M`, and for every finite `nu / M` the clamped value lies in
`[0, 1]`, the hue `fmod(0.66 + 1.4 t, 1)` lies in `[0, 1)`, and the sector
index `floor(6 h)` lies in `0 .. 5` and is the `switch` selector. -/
theorem clamped_t_hue_and_sector (sqrt log : α → α) (M i : ℕ) (zr2 zi2 : α) (r : α) :
    smoothT sqrt log M i zr2 zi2 = clampT (smoothNu sqrt log i zr2 zi2 / (M : α)) ∧
    (0 ≤ clampT r ∧ clampT r ≤ 1) ∧
    hue (clampT r) = fmod (0.66 + 1.4 * clampT r) 1 ∧
    (0 ≤ hue (clampT r) ∧ hue (clampT r) < 1) ∧
    (0 ≤ ⌊hue (clampT r) * 6⌋ ∧ ⌊hue (clampT r) * 6⌋ ≤ 5) ∧
    Int.tmod ⌊hue (clampT r) * 6⌋ 6 = ⌊hue (clampT r) * 6⌋ := by
  have hc := clampT_mem r
  have hh := hue_mem (clampT r) hc.1
  have hs := sector_mem (hue (clampT r)) hh.1 hh.2
  have e6 : (6.0 : α) = 6 := by norm_num
  have e1 : (1.0 : α) = 1 := by norm_num
  rw [e6] at hs
  refine ⟨rfl, hc, ?_, hh, ⟨hs.1, hs.2.1⟩, hs.2.2⟩
  unfold hue
  rw [e1]

/-- C7. Full coverage without overlap, for `N ≥ 1`: the offset map
`(x, y) ↦ (y·N + x)·4` is injective on the image, the 4-byte ranges it
addresses are pairwise disjoint and cover exactly the bytes `[0, 4·N·N)`, the
loops visit each pixel of the image exactly once and nothing else, every byte
of the buffer is stored to exactly once, and after the loop the 4 bytes at the
offset of `(x, y)` are the pixel computed for `(x, y)`. -/
theorem full_coverage_without_overlap (sqrt log : α → α) (N M : ℕ) (_hN : 1 ≤ N) :
    (∀ x y x' y', x < N → y < N → x' < N → y' < N →
      pixelOffset N x y = pixelOffset N x' y' → x = x' ∧ y = y') ∧
    (∀ x y x' y' j k, x < N → y < N → x' < N → y' < N → j < 4 → k < 4 →
      pixelOffset N x y + j = pixelOffset N x' y' + k → x = x' ∧ y = y') ∧
    (∀ b, b < 4 * N * N ↔
      ∃ x y k, x < N ∧ y < N ∧ k < 4 ∧ b = pixelOffset N x y + k) ∧
    (∀ x y, x < N → y < N → (visits N).count (x, y) = 1) ∧
    (∀ xy, xy ∈ visits N → xy.1 < N ∧ xy.2 < N) ∧
    (∀ b, b < 4 * N * N → ((renderStores sqrt log N M).map Store.addr).count b = 1) ∧
    (∀ s, s ∈ renderStores sqrt log N M → s.addr < 4 * N * N) ∧
    (render sqrt log N M).length = 4 * N * N ∧
    (∀ b, b < 4 * N * N → ∃ v, (render sqrt log N M)[b]? = some (some v)) ∧
    (∀ x y, x < N → y < N →
      (render sqrt log N M)[pixelOffset N x y + 0]? = some (some (pixel sqrt log N M x y).r) ∧
      (render sqrt log N M)[pixelOffset N x y + 1]? = some (some (pixel sqrt log N M x y).g) ∧
      (render sqrt log N M)[pixelOffset N x y + 2]? = some (some (pixel sqrt log N M x y).b) ∧
      (render sqrt log N M)[pixelOffset N x y + 3]? =
        some (some (pixel sqrt log N M x y).a)) := by
  have e4 : 4 * N * N = N * N * 4 := by ring
  rw [e4]
  have hdisj : ∀ x y x' y' j k, x < N → y < N → x' < N → y' < N → j < 4 → k < 4 →
      pixelOffset N x y + j = pixelOffset N x' y' + k → x = x' ∧ y = y' := by
    intro x y x' y' j k hx _ hx' _ hj hk h
    unfold pixelOffset at h
    exact pixelIndex_inj N x y x' y' hx hx' (by omega)
  have haddr : ∀ s, s ∈ renderStores sqrt log N M → s.addr < N * N * 4 := by
    intro s hs
    have h : s.addr ∈ (renderStores sqrt log N M).map Store.addr :=
      List.mem_map_of_mem Store.addr hs
    rw [renderStores_addr, List.mem_range] at h
    exact h
  refine ⟨?_, hdisj, ?_, ?_, ?_, ?_, haddr, render_length sqrt log N M, ?_,
    fun x y hx hy => render_pixel sqrt log N M x y hx hy⟩
  · intro x y x' y' hx hy hx' hy' h
    exact hdisj x y x' y' 0 0 hx hy hx' hy' (by norm_num) (by norm_num) (by omega)
  · intro b
    constructor
    · intro hb
      have hN : 0 < N := _hN
      refine ⟨b / 4 % N, b / 4 / N, b % 4, Nat.mod_lt _ hN, ?_, Nat.mod_lt _ (by norm_num), ?_⟩
      · rw [Nat.div_lt_iff_lt_mul hN]
        omega
      · unfold pixelOffset
        rw [Nat.div_add_mod']
        omega
    · rintro ⟨x, y, k, hx, hy, hk, rfl⟩
      have h := pixelIndex_lt N x y hx hy
      unfold pixelOffset
      omega
  · intro x y hx hy
    exact count_eq_one_of_nodup (visits_nodup N) ((mem_visits N x y).2 ⟨hx, hy⟩)
  · rintro ⟨x, y⟩ h
    exact (mem_visits N x y).1 h
  · intro b hb
    rw [renderStores_addr]
    exact List.count_eq_one_of_mem (List.nodup_range _) (List.mem_range.2 hb)
  · intro b hb
    have hmem : b ∈ (renderStores sqrt log N M).map Store.addr := by
      rw [renderStores_addr]
      exact List.mem_range.2 hb
    obtain ⟨s, hs, rfl⟩ := List.mem_map.1 hmem
    exact ⟨s.byte, render_getElem sqrt log N M s hs⟩

/-- C9. Invalid dimensions are rejected before allocation: for `N ≤ 0` the
run is the error message and status 1, with no `malloc`, no store and no call
of the encoder; and a run with any of those events has `N ≥ 1` and `M ≥ 1`. -/
theorem invalid_dimensions_rejected (sqrt log : α → α) (argN argM : Option ℤ)
    (mallocOk pngOk : Bool) :
    (∀ N : ℤ, N ≤ 0 →
      main sqrt log (some N) argM mallocOk pngOk =
        { status := 1, trace := [Event.invalidMessage] }) ∧
    (∀ e, e ∈ (main sqrt log argN argM mallocOk pngOk).trace → e ≠ Event.invalidMessage →
      1 ≤ argN.getD 1024 ∧ 1 ≤ argM.getD 1024) := by
  constructor
  · intro N hN
    simp [main, hN]
  · intro e he hne
    by_cases hg : argN.getD 1024 ≤ 0 ∨ argM.getD 1024 ≤ 0
    · have ht : (main sqrt log argN argM mallocOk pngOk).trace = [Event.invalidMessage] := by
        simp only [main, if_pos hg]
      rw [ht, List.mem_singleton] at he
      exact absurd he hne
    · rw [not_or, not_le, not_le] at hg
      exact ⟨hg.1, hg.2⟩

/-- C10, the code at `N = 1`: the guard of `main` lets `N = 1` through for
every default or positive `M`; the run allocates 4 bytes, makes the four
stores of pixel `(0, 0)`, calls the encoder with a 1 × 1 image and returns
status 0. -/
theorem main_accepts_size_one (sqrt log : α → α) :
    main sqrt log (some 1) none true true =
      { status := 0,
        trace := Event.malloc 4 ::
          ((pixelStores 1 0 0 (pixel sqrt log 1 1024 0 0)).map Event.store ++
            [Event.writePng 1 1 (render sqrt log 1 1024), Event.free, Event.wroteMessage]) } ∧
    (main sqrt log (some 1) none true true).status ≠ 1 ∧
    (main sqrt log (some 1) none true true).trace ≠ [Event.invalidMessage] := by
  have h : main sqrt log (some 1) none true true =
      { status := 0,
        trace := Event.malloc 4 ::
          ((pixelStores 1 0 0 (pixel sqrt log 1 1024 0 0)).map Event.store ++
            [Event.writePng 1 1 (render sqrt log 1 1024), Event.free, Event.wroteMessage]) } := by
    simp [main, renderStores, visits, List.range_succ]
  refine ⟨h, ?_, ?_⟩
  · rw [h]
    norm_num
  · rw [h]
    simp

end Claims

section CoordinateMapping

variable {α : Type} [LinearOrderedField α]

/-- C8. Coordinate mapping endpoints, for `N ≥ 2`: pixel `(0, 0)` starts the
iteration at `(xmin, ymax) = (-1.6, 1.6)` and pixel `(N-1, N-1)` starts it at
`(xmax, ymin) = (1.6, -1.6)`; the start point of pixel `(x, y)` is
`(xmin + x·dx, ymax − y·dy)` with `dx = (xmax − xmin)/(N − 1)` and
`dy = (ymax − ymin)/(N − 1)`. -/
theorem coordinate_mapping_endpoints (N : ℕ) (hN : 2 ≤ N) :
    (start N 0 0 : Iter α).zr = -1.6 ∧ (start N 0 0 : Iter α).zi = 1.6 ∧
    (start N (N - 1) (N - 1) : Iter α).zr = 1.6 ∧
    (start N (N - 1) (N - 1) : Iter α).zi = -1.6 ∧
    (∀ x y : ℕ, (start N x y : Iter α).zr = xmin α + (x : α) * dx α N ∧
      (start N x y : Iter α).zi = ymax α - (y : α) * dy α N) ∧
    dx α N = (xmax α - xmin α) / ((N : α) - 1) ∧
    dy α N = (ymax α - ymin α) / ((N : α) - 1) ∧
    xmin α = -1.6 ∧ xmax α = 1.6 ∧ ymin α = -1.6 ∧ ymax α = 1.6 := by
  have h1 : (1 : α) < (N : α) := by
    have : (1 : ℕ) < N := hN
    exact_mod_cast this
  have hne : (N : α) - 1 ≠ 0 := by linarith
  have hc : (((N - 1 : ℕ) : ℕ) : α) = (N : α) - 1 := by
    rw [Nat.cast_sub (by omega)]
    simp
  have hdx : dx α N = (xmax α - xmin α) / ((N : α) - 1) := by
    simp only [dx, Int.cast_sub, Int.cast_natCast, Int.cast_one]
  have hdy : dy α N = (ymax α - ymin α) / ((N : α) - 1) := by
    simp only [dy, Int.cast_sub, Int.cast_natCast, Int.cast_one]
  refine ⟨?_, ?_, ?_, ?_, fun x y => ⟨rfl, rfl⟩, hdx, hdy, rfl, rfl, rfl, rfl⟩
  · simp only [start, xmin]
    norm_num
  · simp only [start, ymax]
    norm_num
  · simp only [start, hdx, hc, xmin, xmax]
    field_simp
  · simp only [start, hdy, hc, ymin, ymax]
    field_simp

end CoordinateMapping

/-! ## Work, sectors and symmetry -/

section WorkProofs

variable {α : Type} [LinearOrderedField α]

/-- The loop makes exactly the passes that `whilePasses` counts. -/
theorem whileLoop_eq_iterate (M fuel : ℕ) (s : Iter α) :
    whileLoop M fuel s = loopBody^[whilePasses M fuel s] s := by
  induction fuel generalizing s with
  | zero => rfl
  | succ fuel ih =>
    by_cases hc : loopCond M s
    · simp only [whileLoop, whilePasses, if_pos hc, Function.iterate_succ_apply]
      exact ih (loopBody s)
    · simp only [whileLoop, whilePasses, if_neg hc, Function.iterate_zero, id_eq]

/-- The count `i` after the loop is the count before it plus the passes made. -/
theorem whileLoop_i (M fuel : ℕ) (s : Iter α) :
    (whileLoop M fuel s).i = s.i + whilePasses M fuel s := by
  rw [whileLoop_eq_iterate, iterate_loopBody_i]

/-- The loop never makes more than `M - i` passes, whatever the fuel. -/
theorem whilePasses_le (M fuel : ℕ) (s : Iter α) : s.i + whilePasses M fuel s ≤ max M s.i := by
  induction fuel generalizing s with
  | zero => simp [whilePasses]
  | succ fuel ih =>
    by_cases hc : loopCond M s
    · have h := ih (loopBody s)
      have hlt : s.i < M := hc.1
      simp only [whilePasses, if_pos hc]
      rw [loopBody_i] at h
      have hmax : max M (s.i + 1) = M := max_eq_left hlt
      have hmax' : max M s.i = M := max_eq_left (le_of_lt hlt)
      rw [hmax] at h
      rw [hmax']
      omega
    · simp [whilePasses, hc]

/-- Fuel beyond `M - i` changes neither the result nor the number of passes. -/
theorem whileLoop_fuel (M fuel k : ℕ) (s : Iter α) (h : M ≤ s.i + fuel) :
    whileLoop M (fuel + k) s = whileLoop M fuel s ∧
      whilePasses M (fuel + k) s = whilePasses M fuel s := by
  induction fuel generalizing s with
  | zero =>
    have hc : ¬ loopCond M s := fun hc => absurd hc.1 (by omega)
    cases k with
    | zero => exact ⟨rfl, rfl⟩
    | succ k =>
      simp only [Nat.zero_add, whileLoop, whilePasses, if_neg hc, and_self]
  | succ fuel ih =>
    by_cases hc : loopCond M s
    · have e : fuel + 1 + k = (fuel + k) + 1 := by omega
      have h' : M ≤ (loopBody s).i + fuel := by
        rw [loopBody_i]
        omega
      rw [e]
      simp only [whileLoop, whilePasses, if_pos hc, (ih (loopBody s) h').1,
        (ih (loopBody s) h').2, and_self]
    · have e : fuel + 1 + k = (fuel + k) + 1 := by omega
      rw [e]
      simp only [whileLoop, whilePasses, if_neg hc, and_self]

theorem visits_length (N : ℕ) : (visits N).length = N * N := by
  have h := congrArg List.length (visits_index N)
  rw [List.length_map, List.length_range] at h
  exact h

/-- C14. Bounded work, for every accepted `N` and `M`: the inner loop of a
pixel stops after at most `M` passes (more fuel than `M` changes nothing, the
loop test is false on the state returned, and the passes made are the final
count `i ≤ M`), and the passes of the whole render number at most
`N * N * M`. -/
theorem bounded_work (N M : ℕ) (_hN : 1 ≤ N) (_hM : 1 ≤ M) :
    (∀ x y fuel, M ≤ fuel →
      whileLoop M fuel (start N x y : Iter α) = escapeLoop N M x y ∧
      whilePasses M fuel (start N x y : Iter α) = whilePasses M M (start N x y : Iter α)) ∧
    (∀ x y,
      whilePasses M M (start N x y : Iter α) ≤ M ∧
      (escapeLoop N M x y : Iter α) =
        loopBody^[whilePasses M M (start N x y : Iter α)] (start N x y) ∧
      (escapeLoop N M x y : Iter α).i = whilePasses M M (start N x y : Iter α) ∧
      ¬ loopCond M (escapeLoop N M x y : Iter α)) ∧
    renderPasses α N M ≤ N * N * M := by
  have hle : ∀ x y, whilePasses M M (start N x y : Iter α) ≤ M := by
    intro x y
    have h := whilePasses_le M M (start N x y : Iter α)
    simpa [start] using h
  refine ⟨?_, ?_, ?_⟩
  · intro x y fuel hf
    obtain ⟨k, rfl⟩ := Nat.exists_eq_add_of_le hf
    exact whileLoop_fuel M M k (start N x y) (by simp [start])
  · intro x y
    refine ⟨hle x y, whileLoop_eq_iterate M M _, ?_, ?_⟩
    · unfold escapeLoop
      rw [whileLoop_i]
      simp [start]
    · exact whileLoop_exit M M (start N x y) (by simp [start])
  · unfold renderPasses
    have h := List.sum_le_card_nsmul
      ((visits N).map fun xy => whilePasses M M (start N xy.1 xy.2 : Iter α)) M
      (by
        intro n hn
        obtain ⟨xy, -, rfl⟩ := List.mem_map.1 hn
        exact hle xy.1 xy.2)
    rw [List.length_map, visits_length, smul_eq_mul] at h
    exact h

end WorkProofs

section SectorProofs

variable {α : Type} [LinearOrderedField α] [FloorRing α]

/-- The components in a given sector `k = floor(6 h)` of `0 .. 5`. -/
theorem hsvComponents_sector (h s v : α) (h0 : 0 ≤ h) (h1 : h < 1) :
    hsvComponents h s v =
      if ⌊h * 6⌋ = 0 then (v, v * (1 - (1 - (h * 6 - ⌊h * 6⌋)) * s), v * (1 - s))
      else if ⌊h * 6⌋ = 1 then (v * (1 - (h * 6 - ⌊h * 6⌋) * s), v, v * (1 - s))
      else if ⌊h * 6⌋ = 2 then (v * (1 - s), v, v * (1 - (1 - (h * 6 - ⌊h * 6⌋)) * s))
      else if ⌊h * 6⌋ = 3 then (v * (1 - s), v * (1 - (h * 6 - ⌊h * 6⌋) * s), v)
      else if ⌊h * 6⌋ = 4 then (v * (1 - (1 - (h * 6 - ⌊h * 6⌋)) * s), v * (1 - s), v)
      else (v, v * (1 - s), v * (1 - (h * 6 - ⌊h * 6⌋) * s)) := by
  have hs := sector_mem h h0 h1
  have e6 : (6.0 : α) = 6 := by norm_num
  have e1 : (1.0 : α) = 1 := by norm_num
  rw [e6] at hs
  unfold hsvComponents
  simp only [e6, e1, hs.2.2]

/-- C16. `hsv_to_rgb` is the standard six-sector conversion: for `h` in
`[0, 1)`, `s` in `[0, 1]` and `v ≥ 0`, with `f = 6h − floor(6h)`,
`p = v(1 − s)`, `q = v(1 − f s)`, `t = v(1 − (1 − f)s)`, the sector
`floor(6h)` is one of `0 .. 5`, the components `(rf, gf, bf)` are `(v,t,p)`,
`(q,v,p)`, `(p,v,t)`, `(p,q,v)`, `(t,p,v)`, `(v,p,q)` in sectors `0 .. 5`, the
largest component is `v` and the smallest is `p`; the bytes `hsv_to_rgb`
stores are the casts of `255` times these components. -/
theorem hsv_six_sector_conversion (h s v f p q t : α)
    (h0 : 0 ≤ h) (h1 : h < 1) (s0 : 0 ≤ s) (_s1 : s ≤ 1) (v0 : 0 ≤ v)
    (hf : f = 6 * h - ⌊6 * h⌋) (hp : p = v * (1 - s)) (hq : q = v * (1 - f * s))
    (ht : t = v * (1 - (1 - f) * s)) :
    (0 ≤ ⌊6 * h⌋ ∧ ⌊6 * h⌋ ≤ 5) ∧
    (⌊6 * h⌋ = 0 → hsvComponents h s v = (v, t, p)) ∧
    (⌊6 * h⌋ = 1 → hsvComponents h s v = (q, v, p)) ∧
    (⌊6 * h⌋ = 2 → hsvComponents h s v = (p, v, t)) ∧
    (⌊6 * h⌋ = 3 → hsvComponents h s v = (p, q, v)) ∧
    (⌊6 * h⌋ = 4 → hsvComponents h s v = (t, p, v)) ∧
    (⌊6 * h⌋ = 5 → hsvComponents h s v = (v, p, q)) ∧
    max (hsvComponents h s v).1 (max (hsvComponents h s v).2.1 (hsvComponents h s v).2.2) = v ∧
    min (hsvComponents h s v).1 (min (hsvComponents h s v).2.1 (hsvComponents h s v).2.2) = p ∧
    hsv_to_rgb h s v =
      (toUint8 ((hsvComponents h s v).1 * 255), toUint8 ((hsvComponents h s v).2.1 * 255),
        toUint8 ((hsvComponents h s v).2.2 * 255)) := by
  have hs := sector_mem h h0 h1
  have e6 : (6.0 : α) = 6 := by norm_num
  have e255 : (255.0 : α) = 255 := by norm_num
  rw [e6] at hs
  have hc := hsvComponents_sector h s v h0 h1
  have hcomm : (6 : α) * h = h * 6 := mul_comm _ _
  rw [hcomm] at hf ⊢
  rw [← hf] at hc
  rw [← hp, ← hq, ← ht] at hc
  have f0 : 0 ≤ f := by
    rw [hf]
    exact sub_nonneg.2 (Int.floor_le _)
  have f1 : f ≤ 1 := by
    rw [hf]
    have := Int.lt_floor_add_one (h * 6)
    linarith
  have hfs0 : 0 ≤ f * s := mul_nonneg f0 s0
  have hfs1 : f * s ≤ s := by
    have := mul_le_mul_of_nonneg_right f1 s0
    linarith
  have hgs0 : 0 ≤ (1 - f) * s := mul_nonneg (by linarith) s0
  have hgs1 : (1 - f) * s ≤ s := by
    have := mul_le_mul_of_nonneg_right (show 1 - f ≤ 1 by linarith) s0
    linarith
  have hpq : p ≤ q := by
    rw [hp, hq]
    exact mul_le_mul_of_nonneg_left (by linarith) v0
  have hqv : q ≤ v := by
    rw [hq]
    have := mul_le_mul_of_nonneg_left (show 1 - f * s ≤ 1 by linarith) v0
    linarith
  have hpt : p ≤ t := by
    rw [hp, ht]
    exact mul_le_mul_of_nonneg_left (by linarith) v0
  have htv : t ≤ v := by
    rw [ht]
    have := mul_le_mul_of_nonneg_left (show 1 - (1 - f) * s ≤ 1 by linarith) v0
    linarith
  have hpv : p ≤ v := le_trans hpq hqv
  refine ⟨⟨hs.1, hs.2.1⟩, ?_, ?_, ?_, ?_, ?_, ?_, ?_, ?_, ?_⟩
  · intro hk
    rw [hc]
    simp [hk]
  · intro hk
    rw [hc]
    simp [hk]
  · intro hk
    rw [hc]
    simp [hk]
  · intro hk
    rw [hc]
    simp [hk]
  · intro hk
    rw [hc]
    simp [hk]
  · intro hk
    rw [hc]
    simp [hk]
  · rw [hc]
    split_ifs
    · simp only [max_eq_left hpt, max_eq_left htv]
    · simp only [max_eq_left hpv, max_eq_right hqv]
    · simp only [max_eq_left htv, max_eq_right hpv]
    · simp only [max_eq_right hqv, max_eq_right hpv]
    · simp only [max_eq_right hpv, max_eq_right htv]
    · simp only [max_eq_right hpq, max_eq_left hqv]
  · rw [hc]
    split_ifs
    · simp only [min_eq_right hpt, min_eq_right hpv]
    · simp only [min_eq_right hpv, min_eq_right hpq]
    · simp only [min_eq_right htv, min_eq_left hpt]
    · simp only [min_eq_left hqv, min_eq_left hpq]
    · simp only [min_eq_left hpv, min_eq_right hpt]
    · simp only [min_eq_left hpq, min_eq_right hpv]
  · unfold hsv_to_rgb
    simp only [e255]

end SectorProofs

section SymmetryProofs

variable {α : Type} [LinearOrderedField α]

/-- The loop body sees a point only through `zr2`, `zi2` and the product
`zr * zi`: opposite points give the same next state. -/
theorem loopBody_neg (s s' : Iter α) (hi : s'.i = s.i) (h2 : s'.zr2 = s.zr2)
    (h3 : s'.zi2 = s.zi2) (hr : s'.zr = -s.zr) (hm : s'.zi = -s.zi) :
    loopBody s' = loopBody s := by
  have e : (-s.zr + -s.zr) * -s.zi = (s.zr + s.zr) * s.zi := by ring
  unfold loopBody
  simp only [hi, h2, h3, hr, hm, e]

/-- From opposite points with equal cached squares and equal counts the loop
exits with the same count and the same cached squares. -/
theorem whileLoop_neg (M fuel : ℕ) (s s' : Iter α) (hi : s'.i = s.i) (h2 : s'.zr2 = s.zr2)
    (h3 : s'.zi2 = s.zi2) (hr : s'.zr = -s.zr) (hm : s'.zi = -s.zi) :
    (whileLoop M fuel s').i = (whileLoop M fuel s).i ∧
      (whileLoop M fuel s').zr2 = (whileLoop M fuel s).zr2 ∧
      (whileLoop M fuel s').zi2 = (whileLoop M fuel s).zi2 := by
  cases fuel with
  | zero => exact ⟨hi, h2, h3⟩
  | succ fuel =>
    have hcond : loopCond M s' ↔ loopCond M s := by
      unfold loopCond
      rw [hi, h2, h3]
    by_cases hc : loopCond M s
    · simp only [whileLoop, if_pos hc, if_pos (hcond.2 hc), loopBody_neg s s' hi h2 h3 hr hm,
        and_self]
    · simp only [whileLoop, if_neg hc, if_neg (fun h => hc (hcond.1 h))]
      exact ⟨hi, h2, h3⟩

/-- The sample point of the pixel opposite to `(x, y)` is the opposite point. -/
theorem start_mirror (N x y : ℕ) (hN : 2 ≤ N) (hx : x < N) (hy : y < N) :
    (start N (N - 1 - x) (N - 1 - y) : Iter α).zr = -(start N x y : Iter α).zr ∧
      (start N (N - 1 - x) (N - 1 - y) : Iter α).zi = -(start N x y : Iter α).zi := by
  have h1 : (1 : α) < (N : α) := by
    have : (1 : ℕ) < N := hN
    exact_mod_cast this
  have hne : (N : α) - 1 ≠ 0 := by linarith
  have cx : ((N - 1 - x : ℕ) : α) = (N : α) - 1 - (x : α) := by
    rw [Nat.cast_sub (by omega), Nat.cast_sub (by omega)]
    simp
  have cy : ((N - 1 - y : ℕ) : α) = (N : α) - 1 - (y : α) := by
    rw [Nat.cast_sub (by omega), Nat.cast_sub (by omega)]
    simp
  simp only [start, dx, dy, xmin, xmax, ymin, ymax, Int.cast_sub, Int.cast_natCast,
    Int.cast_one, cx, cy]
  constructor
  · field_simp
    ring
  · field_simp
    ring

end SymmetryProofs

section SymmetryClaim

variable {α : Type} [LinearOrderedField α] [FloorRing α]

/-- The colour mapper reads the loop variables `i`, `zr2` and `zi2` only. -/
theorem colour_congr (sqrt log : α → α) (M : ℕ) (s s' : Iter α) (hi : s'.i = s.i)
    (h2 : s'.zr2 = s.zr2) (h3 : s'.zi2 = s.zi2) :
    colour sqrt log M s' = colour sqrt log M s := by
  unfold colour
  rw [hi, h2, h3]

/-- C17. Point symmetry of the render: for `N ≥ 2`, `M ≥ 1` and a pixel
`(x, y)` of the image, the pixel `(N-1-x, N-1-y)` starts at the opposite
point `-z_0(x, y)`, and has the same iteration count, the same final cached
squares (so the same final squared magnitude) and the same four bytes, in the
pixel computed and in the buffer after the loop. -/
theorem point_symmetry (sqrt log : α → α) (N M x y : ℕ)
    (hN : 2 ≤ N) (_hM : 1 ≤ M) (hx : x < N) (hy : y < N) :
    ((start N (N - 1 - x) (N - 1 - y) : Iter α).zr = -(start N x y : Iter α).zr ∧
      (start N (N - 1 - x) (N - 1 - y) : Iter α).zi = -(start N x y : Iter α).zi) ∧
    (escapeLoop N M (N - 1 - x) (N - 1 - y) : Iter α).i = (escapeLoop N M x y : Iter α).i ∧
    (escapeLoop N M (N - 1 - x) (N - 1 - y) : Iter α).zr2 +
        (escapeLoop N M (N - 1 - x) (N - 1 - y) : Iter α).zi2 =
      (escapeLoop N M x y : Iter α).zr2 + (escapeLoop N M x y : Iter α).zi2 ∧
    pixel sqrt log N M (N - 1 - x) (N - 1 - y) = pixel sqrt log N M x y ∧
    (∀ k, k < 4 →
      (render sqrt log N M)[pixelOffset N (N - 1 - x) (N - 1 - y) + k]? =
        (render sqrt log N M)[pixelOffset N x y + k]?) := by
  have hst := @start_mirror α _ N x y hN hx hy
  have hsq : (start N (N - 1 - x) (N - 1 - y) : Iter α).zr2 = (start N x y : Iter α).zr2 ∧
      (start N (N - 1 - x) (N - 1 - y) : Iter α).zi2 = (start N x y : Iter α).zi2 := by
    have ezr : ∀ a b : ℕ, (start N a b : Iter α).zr2 =
        (start N a b : Iter α).zr * (start N a b : Iter α).zr := fun _ _ => rfl
    have ezi : ∀ a b : ℕ, (start N a b : Iter α).zi2 =
        (start N a b : Iter α).zi * (start N a b : Iter α).zi := fun _ _ => rfl
    rw [ezr, ezi, ezr x y, ezi x y, hst.1, hst.2]
    exact ⟨by ring, by ring⟩
  have hloop := whileLoop_neg M M (start N x y : Iter α) (start N (N - 1 - x) (N - 1 - y)) rfl
    hsq.1 hsq.2 hst.1 hst.2
  have hpx : pixel sqrt log N M (N - 1 - x) (N - 1 - y) = pixel sqrt log N M x y :=
    colour_congr sqrt log M _ _ hloop.1 hloop.2.1 hloop.2.2
  refine ⟨hst, hloop.1, ?_, hpx, ?_⟩
  · unfold escapeLoop
    rw [hloop.2.1, hloop.2.2]
  · intro k hk
    have hx' : N - 1 - x < N := by omega
    have hy' : N - 1 - y < N := by omega
    obtain ⟨a0, a1, a2, a3⟩ := render_pixel sqrt log N M (N - 1 - x) (N - 1 - y) hx' hy'
    obtain ⟨b0, b1, b2, b3⟩ := render_pixel sqrt log N M x y hx hy
    rw [hpx] at a0 a1 a2 a3
    interval_cases k
    · rw [a0, b0]
    · rw [a1, b1]
    · rw [a2, b2]
    · rw [a3, b3]

end SymmetryClaim

section DeterminismProofs

variable {α : Type} [LinearOrderedField α] [FloorRing α]

theorem renderStores_length (sqrt log : α → α) (N M : ℕ) :
    (renderStores sqrt log N M).length = N * N * 4 := by
  have h := congrArg List.length (renderStores_addr sqrt log N M)
  rw [List.length_map, List.length_range] at h
  exact h

/-- The `a`-th store of the render loop goes to address `a`. -/
theorem renderStores_getElem_addr (sqrt log : α → α) (N M a : ℕ)
    (ha : a < (renderStores sqrt log N M).length) :
    ((renderStores sqrt log N M)[a]).addr = a := by
  have h : ((renderStores sqrt log N M).map Store.addr)[a]? = (List.range (N * N * 4))[a]? := by
    rw [renderStores_addr]
  rw [List.getElem?_map, List.getElem?_eq_getElem ha, List.getElem?_range
    (by rw [← renderStores_length sqrt log N M]; exact ha)] at h
  exact Option.some.inj h

/-- Whatever the buffer held before and in whatever order the stores of the
render loop are made, the buffer afterwards is the list of the stored bytes. -/
theorem foldl_applyStore_perm (sqrt log : α → α) (N M : ℕ) (img0 : Buffer)
    (h0 : img0.length = N * N * 4) (ss : List Store)
    (hperm : ss.Perm (renderStores sqrt log N M)) :
    ss.foldl applyStore img0 = (renderStores sqrt log N M).map fun s => some s.byte := by
  apply List.ext_getElem?
  intro a
  rcases Nat.lt_or_ge a (N * N * 4) with ha | ha
  · have hlen : a < (renderStores sqrt log N M).length := by
      rw [renderStores_length]
      exact ha
    have haddr := renderStores_getElem_addr sqrt log N M a hlen
    have hmem : (renderStores sqrt log N M)[a] ∈ ss :=
      hperm.mem_iff.2 (List.getElem_mem hlen)
    have hnd : (ss.map Store.addr).Nodup := by
      rw [(hperm.map Store.addr).nodup_iff, renderStores_addr]
      exact List.nodup_range _
    have h := foldl_applyStore_mem ss img0 _ hnd hmem (by rw [haddr, h0]; exact ha)
    rw [haddr] at h
    rw [h, List.getElem?_map, List.getElem?_eq_getElem hlen]
    rfl
  · rw [List.getElem?_eq_none (by rw [foldl_applyStore_length, h0]; exact ha),
      List.getElem?_eq_none (by rw [List.length_map, renderStores_length]; exact ha)]

/-- C12. Determinism and per-pixel independence: whatever the buffer holds
when `malloc` returns it, and in whatever order the pixels are visited or the
byte stores are made, the buffer after the render is the same list of bytes;
that list is the pixels `pixel sqrt log N M x y` laid out in row-major
order, with no cell left unwritten, so the 4 bytes of pixel `(x, y)` are a
function of `(x, y, N, M)` alone. -/
theorem render_is_deterministic (sqrt log : α → α) (N M : ℕ)
    (img0 img1 : Buffer) (h0 : img0.length = N * N * 4) (h1 : img1.length = N * N * 4)
    (vs : List (ℕ × ℕ)) (hvs : vs.Perm (visits N))
    (ss : List Store) (hss : ss.Perm (renderStores sqrt log N M)) :
    (renderStores sqrt log N M).foldl applyStore img0 =
      (renderStores sqrt log N M).foldl applyStore img1 ∧
    (renderStores sqrt log N M).foldl applyStore img0 = render sqrt log N M ∧
    (vs.flatMap fun xy =>
        pixelStores N xy.1 xy.2 (pixel sqrt log N M xy.1 xy.2)).foldl applyStore img0 =
      render sqrt log N M ∧
    ss.foldl applyStore img0 = render sqrt log N M ∧
    render sqrt log N M =
      ((visits N).flatMap fun xy =>
        [some (pixel sqrt log N M xy.1 xy.2).r, some (pixel sqrt log N M xy.1 xy.2).g,
          some (pixel sqrt log N M xy.1 xy.2).b, some (pixel sqrt log N M xy.1 xy.2).a]) ∧
    (∀ x y, x < N → y < N →
      (render sqrt log N M)[pixelOffset N x y + 0]? = some (some (pixel sqrt log N M x y).r) ∧
      (render sqrt log N M)[pixelOffset N x y + 1]? = some (some (pixel sqrt log N M x y).g) ∧
      (render sqrt log N M)[pixelOffset N x y + 2]? = some (some (pixel sqrt log N M x y).b) ∧
      (render sqrt log N M)[pixelOffset N x y + 3]? =
        some (some (pixel sqrt log N M x y).a)) := by
  have hr : render sqrt log N M = (renderStores sqrt log N M).map fun s => some s.byte :=
    foldl_applyStore_perm sqrt log N M (mallocBuffer N) (by simp [mallocBuffer]) _
      (List.Perm.refl _)
  have e0 := foldl_applyStore_perm sqrt log N M img0 h0 _ (List.Perm.refl _)
  have e1 := foldl_applyStore_perm sqrt log N M img1 h1 _ (List.Perm.refl _)
  refine ⟨e0.trans e1.symm, e0.trans hr.symm, ?_, ?_, ?_,
    fun x y hx hy => render_pixel sqrt log N M x y hx hy⟩
  · rw [hr]
    exact foldl_applyStore_perm sqrt log N M img0 h0 _ (hvs.flatMap_right _)
  · rw [hr]
    exact foldl_applyStore_perm sqrt log N M img0 h0 ss hss
  · rw [hr]
    simp [renderStores, pixelStores, List.map_flatMap]

end DeterminismProofs

section OrbitBounds

variable {α : Type} [LinearOrderedField α]

/-- A sample point of the image lies in the viewport square, so its squared
magnitude is at most `1.6² + 1.6² = 5.12`. -/
theorem normSq_specSample_le (N x y : ℕ) (hN : 2 ≤ N) (hx : x < N) (hy : y < N) :
    normSq (specSample N x y : α × α) ≤ 5.12 := by
  have h1 : (1 : α) < (N : α) := by
    have : (1 : ℕ) < N := hN
    exact_mod_cast this
  have hpos : (0 : α) < (N : α) - 1 := by linarith
  have hxN : (x : α) ≤ (N : α) - 1 := by
    have : x + 1 ≤ N := hx
    have h : ((x + 1 : ℕ) : α) ≤ (N : α) := by exact_mod_cast this
    push_cast at h
    linarith
  have hyN : (y : α) ≤ (N : α) - 1 := by
    have : y + 1 ≤ N := hy
    have h : ((y + 1 : ℕ) : α) ≤ (N : α) := by exact_mod_cast this
    push_cast at h
    linarith
  have hx0 : (0 : α) ≤ (x : α) := Nat.cast_nonneg x
  have hy0 : (0 : α) ≤ (y : α) := Nat.cast_nonneg y
  have ha0 : (0 : α) ≤ (x : α) / ((N : α) - 1) := div_nonneg hx0 (le_of_lt hpos)
  have ha1 : (x : α) / ((N : α) - 1) ≤ 1 := (div_le_one hpos).2 hxN
  have hb0 : (0 : α) ≤ (y : α) / ((N : α) - 1) := div_nonneg hy0 (le_of_lt hpos)
  have hb1 : (y : α) / ((N : α) - 1) ≤ 1 := (div_le_one hpos).2 hyN
  have ex : (x : α) * ((1.6 - -1.6) / ((N : α) - 1)) = 3.2 * ((x : α) / ((N : α) - 1)) := by
    field_simp
    ring
  have ey : (y : α) * ((1.6 - -1.6) / ((N : α) - 1)) = 3.2 * ((y : α) / ((N : α) - 1)) := by
    field_simp
    ring
  simp only [normSq, specSample, ex, ey]
  nlinarith [mul_nonneg ha0 (sub_nonneg.2 ha1), mul_nonneg hb0 (sub_nonneg.2 hb1)]

end OrbitBounds

section RealBounds

/-- One step of `z ↦ z² + c` from inside the escape circle ends within
`4 + |c|` of the origin, `|c| = √0.52`. -/
theorem sqrt_normSq_specStep_le (z : ℝ × ℝ) (h : normSq z ≤ 4) :
    Real.sqrt (normSq (specStep z)) ≤ 4 + Real.sqrt 0.52 := by
  have hd0 : 0 ≤ Real.sqrt 0.52 := Real.sqrt_nonneg _
  have hd2 : Real.sqrt 0.52 ^ 2 = 0.52 := Real.sq_sqrt (by norm_num)
  have hr0 : 0 ≤ normSq z := by
    unfold normSq
    positivity
  rw [Real.sqrt_le_left (by linarith)]
  have hcs : (z.1 ^ 2 - z.2 ^ 2) * (-0.4) + (2 * z.1 * z.2) * 0.6 ≤
      normSq z * Real.sqrt 0.52 := by
    by_contra hlt
    rw [not_le] at hlt
    have hprod : 0 ≤ normSq z * Real.sqrt 0.52 := mul_nonneg hr0 hd0
    have hsq : (normSq z * Real.sqrt 0.52) ^ 2 <
        ((z.1 ^ 2 - z.2 ^ 2) * (-0.4) + (2 * z.1 * z.2) * 0.6) ^ 2 :=
      pow_lt_pow_left₀ hlt hprod (by norm_num)
    have hexp : (normSq z * Real.sqrt 0.52) ^ 2 = normSq z ^ 2 * 0.52 := by
      rw [mul_pow, hd2]
    rw [hexp] at hsq
    unfold normSq at hsq
    nlinarith [sq_nonneg ((z.1 ^ 2 - z.2 ^ 2) * 0.6 - (2 * z.1 * z.2) * (-0.4))]
  have hexpand : normSq (specStep z) =
      normSq z ^ 2 + 2 * ((z.1 ^ 2 - z.2 ^ 2) * (-0.4) + (2 * z.1 * z.2) * 0.6) + 0.52 := by
    simp only [normSq, specStep]
    ring
  rw [hexpand]
  nlinarith [mul_nonneg hr0 hd0, mul_nonneg (sub_nonneg.2 h) hd0,
    mul_nonneg hr0 (sub_nonneg.2 h)]

/-- What the loop leaves behind for an escaped pixel of the image, over the
reals: the squared magnitude exceeds 4 and the magnitude lies in
`(2, 4 + √0.52]`. -/
theorem escaped_magnitude_bounds (N M x y : ℕ) (hN : 2 ≤ N) (hx : x < N) (hy : y < N)
    (hesc : (escapeLoop N M x y : Iter ℝ).i < M) :
    4 < (escapeLoop N M x y : Iter ℝ).zr2 + (escapeLoop N M x y : Iter ℝ).zi2 ∧
    2 < Real.sqrt ((escapeLoop N M x y : Iter ℝ).zr2 + (escapeLoop N M x y : Iter ℝ).zi2) ∧
    Real.sqrt ((escapeLoop N M x y : Iter ℝ).zr2 + (escapeLoop N M x y : Iter ℝ).zi2) ≤
      4 + Real.sqrt 0.52 := by
  obtain ⟨n, -, heq, -, hle, hgt⟩ := @escapeLoop_eq ℝ _ N M x y
  have hi := escapeLoop_i_of_eq N M x y n heq
  rw [hi] at hesc
  have hm : (escapeLoop N M x y : Iter ℝ).zr2 + (escapeLoop N M x y : Iter ℝ).zi2 =
      normSq (specOrbit (specSample N x y : ℝ × ℝ) n) := by
    rw [heq, iterate_loopBody_start]
    rfl
  rw [hm]
  have h4 := hgt hesc
  refine ⟨h4, ?_, ?_⟩
  · rw [Real.lt_sqrt (by norm_num)]
    norm_num
    exact h4
  · cases n with
    | zero =>
      have h0 : normSq (specOrbit (specSample N x y : ℝ × ℝ) 0) ≤ 5.12 :=
        normSq_specSample_le N x y hN hx hy
      have hd0 : 0 ≤ Real.sqrt 0.52 := Real.sqrt_nonneg _
      rw [Real.sqrt_le_left (by linarith)]
      nlinarith
    | succ n => exact sqrt_normSq_specStep_le _ (hle n (Nat.lt_succ_self n))

/-- C15. Bounded intermediate values, over the reals, for `N ≥ 2`, `M ≥ 1`
and a pixel of the image: every point the loop body is applied to has
`|z|² ≤ 4`; every point `(zr, zi)` the loop holds, the one at exit included,
has `|z| ≤ 4 + √0.52`; and the final magnitude of an escaped pixel lies in
`(2, 4 + √0.52]`. -/
theorem bounded_intermediate_values (N M x y : ℕ)
    (hN : 2 ≤ N) (_hM : 1 ≤ M) (hx : x < N) (hy : y < N) :
    (∀ k, k < (escapeLoop N M x y : Iter ℝ).i →
      (loopBody^[k] (start N x y : Iter ℝ)).zr ^ 2 +
        (loopBody^[k] (start N x y : Iter ℝ)).zi ^ 2 ≤ 4) ∧
    (∀ k, k ≤ (escapeLoop N M x y : Iter ℝ).i →
      Real.sqrt ((loopBody^[k] (start N x y : Iter ℝ)).zr ^ 2 +
        (loopBody^[k] (start N x y : Iter ℝ)).zi ^ 2) ≤ 4 + Real.sqrt 0.52) ∧
    Real.sqrt ((escapeLoop N M x y : Iter ℝ).zr ^ 2 + (escapeLoop N M x y : Iter ℝ).zi ^ 2) ≤
      4 + Real.sqrt 0.52 ∧
    ((escapeLoop N M x y : Iter ℝ).i < M →
      2 < Real.sqrt ((escapeLoop N M x y : Iter ℝ).zr2 + (escapeLoop N M x y : Iter ℝ).zi2) ∧
      Real.sqrt ((escapeLoop N M x y : Iter ℝ).zr2 + (escapeLoop N M x y : Iter ℝ).zi2) ≤
        4 + Real.sqrt 0.52) := by
  obtain ⟨n, -, heq, -, hle, -⟩ := @escapeLoop_eq ℝ _ N M x y
  have hi := escapeLoop_i_of_eq N M x y n heq
  have hall : ∀ k, k ≤ n →
      Real.sqrt ((loopBody^[k] (start N x y : Iter ℝ)).zr ^ 2 +
        (loopBody^[k] (start N x y : Iter ℝ)).zi ^ 2) ≤ 4 + Real.sqrt 0.52 := by
    intro k hk
    rw [iterate_loopBody_start]
    cases k with
    | zero =>
      have h0 : normSq (specOrbit (specSample N x y : ℝ × ℝ) 0) ≤ 5.12 :=
        normSq_specSample_le N x y hN hx hy
      have hd0 : 0 ≤ Real.sqrt 0.52 := Real.sqrt_nonneg _
      rw [Real.sqrt_le_left (by linarith)]
      unfold normSq at h0
      nlinarith
    | succ k => exact sqrt_normSq_specStep_le _ (hle k hk)
  refine ⟨?_, ?_, ?_, ?_⟩
  · intro k hk
    rw [hi] at hk
    rw [iterate_loopBody_start]
    exact hle k hk
  · intro k hk
    rw [hi] at hk
    exact hall k hk
  · rw [heq]
    exact hall n (le_refl n)
  · intro hesc
    exact (escaped_magnitude_bounds N M x y hN hx hy hesc).2

/-- Lines 150–152 stay inside the domains of `sqrt`, `log` and division, over
the reals, for `N ≥ 2`, `M ≥ 1` and an escaped pixel: the argument of `sqrt`
exceeds 4,
`mag > 2 > 1`, so `log(mag) > log 2 > 0` is a positive argument for the outer
`log`; the divisors `log 2` and `M` of lines 115 and 152 are not zero; and
`nu` is computed from exactly these operations. -/
theorem logarithms_inside_domain (N M x y : ℕ)
    (hN : 2 ≤ N) (hM : 1 ≤ M) (hx : x < N) (hy : y < N)
    (hesc : (escapeLoop N M x y : Iter ℝ).i < M) :
    4 < (escapeLoop N M x y : Iter ℝ).zr2 + (escapeLoop N M x y : Iter ℝ).zi2 ∧
    2 < Real.sqrt ((escapeLoop N M x y : Iter ℝ).zr2 + (escapeLoop N M x y : Iter ℝ).zi2) ∧
    (1 : ℝ) < 2 ∧
    0 < Real.log
      (Real.sqrt ((escapeLoop N M x y : Iter ℝ).zr2 + (escapeLoop N M x y : Iter ℝ).zi2)) ∧
    Real.log 2.0 ≠ 0 ∧ (M : ℝ) ≠ 0 ∧
    smoothNu Real.sqrt Real.log (escapeLoop N M x y : Iter ℝ).i
        (escapeLoop N M x y : Iter ℝ).zr2 (escapeLoop N M x y : Iter ℝ).zi2 =
      ((escapeLoop N M x y : Iter ℝ).i : ℝ) + 1 -
        Real.log (Real.log (Real.sqrt
          ((escapeLoop N M x y : Iter ℝ).zr2 + (escapeLoop N M x y : Iter ℝ).zi2))) *
          (1 / Real.log 2) := by
  obtain ⟨h4, h2, -⟩ := escaped_magnitude_bounds N M x y hN hx hy hesc
  have e2 : (2.0 : ℝ) = 2 := by norm_num
  have hl2 : 0 < Real.log 2 := Real.log_pos (by norm_num)
  refine ⟨h4, h2, by norm_num, Real.log_pos (by linarith), ?_, ?_, ?_⟩
  · rw [e2]
    exact ne_of_gt hl2
  · have : (0 : ℝ) < (M : ℝ) := by exact_mod_cast hM
    exact ne_of_gt this
  · unfold smoothNu inv_log2
    norm_num

/-- C18. The lower clamp is never active, over the reals, for `N ≥ 2`,
`M ≥ 1` and an escaped pixel: `mag ≤ 4 + √0.52 < e²`, so `nu` and
`t = nu / M` are strictly positive, the test `t < 0.0` of line 153 is false,
and the clamped value is `1` when `t > 1` and `t` otherwise. -/
theorem lower_clamp_never_active (N M x y : ℕ)
    (hN : 2 ≤ N) (hM : 1 ≤ M) (hx : x < N) (hy : y < N)
    (hesc : (escapeLoop N M x y : Iter ℝ).i < M) :
    Real.sqrt ((escapeLoop N M x y : Iter ℝ).zr2 + (escapeLoop N M x y : Iter ℝ).zi2) ≤
      4 + Real.sqrt 0.52 ∧
    4 + Real.sqrt 0.52 < Real.exp 2 ∧
    0 < smoothNu Real.sqrt Real.log (escapeLoop N M x y : Iter ℝ).i
        (escapeLoop N M x y : Iter ℝ).zr2 (escapeLoop N M x y : Iter ℝ).zi2 ∧
    0 < smoothNu Real.sqrt Real.log (escapeLoop N M x y : Iter ℝ).i
        (escapeLoop N M x y : Iter ℝ).zr2 (escapeLoop N M x y : Iter ℝ).zi2 / (M : ℝ) ∧
    ¬ smoothNu Real.sqrt Real.log (escapeLoop N M x y : Iter ℝ).i
        (escapeLoop N M x y : Iter ℝ).zr2 (escapeLoop N M x y : Iter ℝ).zi2 / (M : ℝ) < 0.0 ∧
    smoothT Real.sqrt Real.log M (escapeLoop N M x y : Iter ℝ).i
        (escapeLoop N M x y : Iter ℝ).zr2 (escapeLoop N M x y : Iter ℝ).zi2 =
      (if smoothNu Real.sqrt Real.log (escapeLoop N M x y : Iter ℝ).i
          (escapeLoop N M x y : Iter ℝ).zr2 (escapeLoop N M x y : Iter ℝ).zi2 / (M : ℝ) > 1
        then 1
        else smoothNu Real.sqrt Real.log (escapeLoop N M x y : Iter ℝ).i
          (escapeLoop N M x y : Iter ℝ).zr2 (escapeLoop N M x y : Iter ℝ).zi2 / (M : ℝ)) := by
  obtain ⟨-, h2, hle⟩ := escaped_magnitude_bounds N M x y hN hx hy hesc
  have hd1 : Real.sqrt 0.52 < 1 := by
    rw [Real.sqrt_lt' (by norm_num)]
    norm_num
  have he : (5 : ℝ) < Real.exp 2 := by
    have h1 := Real.exp_one_gt_d9
    have h2 : Real.exp 2 = Real.exp 1 * Real.exp 1 := by
      rw [← Real.exp_add]
      norm_num
    rw [h2]
    nlinarith
  have hl2 : 0 < Real.log 2 := Real.log_pos (by norm_num)
  have hmagpos : 0 < Real.sqrt
      ((escapeLoop N M x y : Iter ℝ).zr2 + (escapeLoop N M x y : Iter ℝ).zi2) := by linarith
  have hlog0 : 0 < Real.log (Real.sqrt
      ((escapeLoop N M x y : Iter ℝ).zr2 + (escapeLoop N M x y : Iter ℝ).zi2)) :=
    Real.log_pos (by linarith)
  have hlog2 : Real.log (Real.sqrt
      ((escapeLoop N M x y : Iter ℝ).zr2 + (escapeLoop N M x y : Iter ℝ).zi2)) < 2 := by
    rw [Real.log_lt_iff_lt_exp hmagpos]
    linarith
  have hll : Real.log (Real.log (Real.sqrt
      ((escapeLoop N M x y : Iter ℝ).zr2 + (escapeLoop N M x y : Iter ℝ).zi2))) <
      Real.log 2 := Real.log_lt_log hlog0 hlog2
  have hratio : Real.log (Real.log (Real.sqrt
      ((escapeLoop N M x y : Iter ℝ).zr2 + (escapeLoop N M x y : Iter ℝ).zi2))) *
      (1 / Real.log 2) < 1 := by
    rw [mul_one_div, div_lt_one hl2]
    exact hll
  have hi0 : (0 : ℝ) ≤ ((escapeLoop N M x y : Iter ℝ).i : ℝ) := Nat.cast_nonneg _
  have hnu : 0 < smoothNu Real.sqrt Real.log (escapeLoop N M x y : Iter ℝ).i
      (escapeLoop N M x y : Iter ℝ).zr2 (escapeLoop N M x y : Iter ℝ).zi2 := by
    unfold smoothNu inv_log2
    norm_num
    norm_num at hratio
    linarith
  have hMpos : (0 : ℝ) < (M : ℝ) := by exact_mod_cast hM
  have ht : 0 < smoothNu Real.sqrt Real.log (escapeLoop N M x y : Iter ℝ).i
      (escapeLoop N M x y : Iter ℝ).zr2 (escapeLoop N M x y : Iter ℝ).zi2 / (M : ℝ) :=
    div_pos hnu hMpos
  have e0 : (0.0 : ℝ) = 0 := by norm_num
  have e1 : (1.0 : ℝ) = 1 := by norm_num
  refine ⟨hle, by linarith, hnu, ht, ?_, ?_⟩
  · rw [e0]
    exact not_lt.2 (le_of_lt ht)
  · unfold smoothT clampT
    simp only [e0, e1, if_neg (not_lt.2 (le_of_lt ht))]

end RealBounds

section ClampUpper

variable {α : Type} [LinearOrderedField α]

/-- The second clamp: a value above 1 becomes 1. -/
theorem clampT_of_one_lt (r : α) (h : 1 < r) : clampT r = 1 := by
  have e0 : (0.0 : α) = 0 := by norm_num
  have e1 : (1.0 : α) = 1 := by norm_num
  unfold clampT
  simp only [e0, e1, if_neg (not_lt.2 (le_of_lt (lt_trans zero_lt_one h))), gt_iff_lt, if_pos h]

end ClampUpper

section Quantisation

variable {α : Type} [LinearOrderedField α] [FloorRing α]

/-- At `t = 1` the hue is `frac(2.06) = 0.06`. -/
theorem hue_one : hue (1 : α) = 0.06 := by
  unfold hue
  rw [fmod_one_of_nonneg _ (by norm_num), Int.fract_eq_iff]
  refine ⟨by norm_num, by norm_num, 2, ?_⟩
  norm_num

/-- At `t = 1` the components are `(v, t, p) = (1.1, 0.5016, 0.165)`. -/
theorem hsvComponents_at_one :
    hsvComponents (hue (1 : α)) (saturation α) (value (1 : α)) = (1.1, 0.5016, 0.165) := by
  have hfl : ⌊(0.06 : α) * 6⌋ = 0 := by
    rw [Int.floor_eq_zero_iff]
    constructor
    · norm_num
    · norm_num
  rw [hue_one, hsvComponents_sector _ _ _ (by norm_num) (by norm_num), if_pos hfl, hfl]
  unfold saturation value
  norm_num

/-- The cast of `1.1 * 255 = 280.5` keeps the low 8 bits of 280. -/
theorem toUint8_at_one : toUint8 ((1.1 : α) * 255) = 24 ∧ ⌊(1.1 : α) * 255⌋ = 280 := by
  have hfl : ⌊(1.1 : α) * 255⌋ = 280 := by
    rw [Int.floor_eq_iff]
    constructor
    · norm_num
    · norm_num
  refine ⟨?_, hfl⟩
  unfold toUint8
  rw [truncate_of_nonneg _ (by norm_num), hfl]
  rfl

end Quantisation

section QuantisationClaim

/-- Pixel `(0, 0)` of the 2 × 2 image, over the reals: the loop makes no
pass and leaves `zr2 = zi2 = 2.56`. -/
theorem escapeLoop_corner_real :
    (escapeLoop 2 1 0 0 : Iter ℝ).i = 0 ∧ (escapeLoop 2 1 0 0 : Iter ℝ).zr2 = 2.56 ∧
      (escapeLoop 2 1 0 0 : Iter ℝ).zi2 = 2.56 := by
  have hc : ¬ loopCond 1 (start 2 0 0 : Iter ℝ) := by
    simp only [loopCond, start, xmin, ymax, escape2]
    norm_num
  have e : (escapeLoop 2 1 0 0 : Iter ℝ) = start 2 0 0 := by
    simp only [escapeLoop, whileLoop, if_neg hc]
  rw [e]
  simp only [start, xmin, ymax]
  norm_num

/-- C11, the code at `N = 2`, `M = 1`, pixel `(0, 0)`, over the reals: the
pixel is escaped with `i = 0`, its `nu` exceeds 1 so the clamped `t` is 1,
`v = 1.1` is the component `rf`, and `255 · rf = 280.5` is not below 256: the
byte stored is not `floor(255 · rf) = 280` but its low 8 bits, 24. -/
theorem quantisation_out_of_range_at_corner :
    (escapeLoop 2 1 0 0 : Iter ℝ).i < 1 ∧
    smoothT Real.sqrt Real.log 1 (escapeLoop 2 1 0 0 : Iter ℝ).i
      (escapeLoop 2 1 0 0 : Iter ℝ).zr2 (escapeLoop 2 1 0 0 : Iter ℝ).zi2 = 1 ∧
    (0 ≤ (1 : ℝ) ∧ (1 : ℝ) ≤ 1) ∧
    hsvComponents (hue (1 : ℝ)) (saturation ℝ) (value (1 : ℝ)) = (1.1, 0.5016, 0.165) ∧
    ¬ ((1.1 : ℝ) * 255 < 256) ∧
    ⌊(1.1 : ℝ) * 255⌋ = 280 ∧
    (pixel Real.sqrt Real.log 2 1 0 0).r = 24 ∧
    ((pixel Real.sqrt Real.log 2 1 0 0).r : ℤ) ≠ ⌊(1.1 : ℝ) * 255⌋ := by
  obtain ⟨hi, hzr, hzi⟩ := escapeLoop_corner_real
  have hlt : (escapeLoop 2 1 0 0 : Iter ℝ).i < 1 := by
    rw [hi]
    exact Nat.zero_lt_one
  have ht : smoothT Real.sqrt Real.log 1 (escapeLoop 2 1 0 0 : Iter ℝ).i
      (escapeLoop 2 1 0 0 : Iter ℝ).zr2 (escapeLoop 2 1 0 0 : Iter ℝ).zi2 = 1 := by
    rw [hi, hzr, hzi]
    unfold smoothT
    apply clampT_of_one_lt
    have hm1 : 1 < Real.sqrt (2.56 + 2.56) := by
      rw [Real.lt_sqrt (by norm_num)]
      norm_num
    have hme : Real.sqrt (2.56 + 2.56) < Real.exp 1 := by
      have h1 := Real.exp_one_gt_d9
      rw [Real.sqrt_lt' (by linarith)]
      nlinarith
    have hl0 : 0 < Real.log (Real.sqrt (2.56 + 2.56)) := Real.log_pos hm1
    have hl1 : Real.log (Real.sqrt (2.56 + 2.56)) < 1 := by
      rw [Real.log_lt_iff_lt_exp (by linarith)]
      exact hme
    have hll : Real.log (Real.log (Real.sqrt (2.56 + 2.56))) < 0 := Real.log_neg hl0 hl1
    have hl2 : 0 < Real.log 2 := Real.log_pos (by norm_num)
    have hprod : Real.log (Real.log (Real.sqrt (2.56 + 2.56))) * (1 / Real.log 2) < 0 :=
      mul_neg_of_neg_of_pos hll (one_div_pos.2 hl2)
    unfold smoothNu inv_log2
    norm_num
    norm_num at hprod
    linarith
  have hr : (pixel Real.sqrt Real.log 2 1 0 0).r = 24 := by
    unfold pixel
    rw [colour_escaped Real.sqrt Real.log 1 _ hlt, ht]
    simp only [hsv_to_rgb, hsvComponents_at_one]
    have e255 : (255.0 : ℝ) = 255 := by norm_num
    rw [e255]
    exact (toUint8_at_one).1
  refine ⟨hlt, ht, ⟨by norm_num, le_refl 1⟩, hsvComponents_at_one, by norm_num,
    (toUint8_at_one).2, hr, ?_⟩
  rw [hr, (toUint8_at_one).2]
  norm_num

/-- At `N = 2`, `M = 1`, pixel `(0, 0)`, over the reals, `nu` exceeds 1 and the
clamped `t` is 1. -/
theorem smoothT_corner_real :
    smoothT Real.sqrt Real.log 1 (escapeLoop 2 1 0 0 : Iter ℝ).i
      (escapeLoop 2 1 0 0 : Iter ℝ).zr2 (escapeLoop 2 1 0 0 : Iter ℝ).zi2 = 1 := by
  obtain ⟨hi, hzr, hzi⟩ := escapeLoop_corner_real
  rw [hi, hzr, hzi]
  unfold smoothT
  apply clampT_of_one_lt
  have hm1 : 1 < Real.sqrt (2.56 + 2.56) := by
    rw [Real.lt_sqrt (by norm_num)]
    norm_num
  have hme : Real.sqrt (2.56 + 2.56) < Real.exp 1 := by
    have h1 := Real.exp_one_gt_d9
    rw [Real.sqrt_lt' (by linarith)]
    nlinarith
  have hl0 : 0 < Real.log (Real.sqrt (2.56 + 2.56)) := Real.log_pos hm1
  have hl1 : Real.log (Real.sqrt (2.56 + 2.56)) < 1 := by
    rw [Real.log_lt_iff_lt_exp (by linarith)]
    exact hme
  have hll : Real.log (Real.log (Real.sqrt (2.56 + 2.56))) < 0 := Real.log_neg hl0 hl1
  have hl2 : 0 < Real.log 2 := Real.log_pos (by norm_num)
  have hprod : Real.log (Real.log (Real.sqrt (2.56 + 2.56))) * (1 / Real.log 2) < 0 :=
    mul_neg_of_neg_of_pos hll (one_div_pos.2 hl2)
  unfold smoothNu inv_log2
  norm_num
  norm_num at hprod
  linarith

/-- C13, the code at `N = 2`, `M = 1`, pixel `(0, 0)`, over the reals: the
pixel is escaped and the operations of lines 150–152 are inside their
domains (`mag > 2`, `log(mag) > 0`, the divisors `log 2` and `M` are not
zero), but the escaped branch goes on to `hsv_to_rgb`, whose cast of line 45
stores `(uint8_t)(rf * 255.0)` with `rf * 255.0 = 280.5`, not below 256: a
conversion outside the range of `uint8_t`. -/
theorem escaped_branch_has_undefined_cast :
    (escapeLoop 2 1 0 0 : Iter ℝ).i < 1 ∧
    2 < Real.sqrt ((escapeLoop 2 1 0 0 : Iter ℝ).zr2 + (escapeLoop 2 1 0 0 : Iter ℝ).zi2) ∧
    0 < Real.log
      (Real.sqrt ((escapeLoop 2 1 0 0 : Iter ℝ).zr2 + (escapeLoop 2 1 0 0 : Iter ℝ).zi2)) ∧
    Real.log 2.0 ≠ 0 ∧ ((1 : ℕ) : ℝ) ≠ 0 ∧
    (pixel Real.sqrt Real.log 2 1 0 0).r =
      toUint8 ((hsvComponents
        (hue (smoothT Real.sqrt Real.log 1 (escapeLoop 2 1 0 0 : Iter ℝ).i
          (escapeLoop 2 1 0 0 : Iter ℝ).zr2 (escapeLoop 2 1 0 0 : Iter ℝ).zi2))
        (saturation ℝ)
        (value (smoothT Real.sqrt Real.log 1 (escapeLoop 2 1 0 0 : Iter ℝ).i
          (escapeLoop 2 1 0 0 : Iter ℝ).zr2 (escapeLoop 2 1 0 0 : Iter ℝ).zi2))).1 * 255.0) ∧
    (hsvComponents
        (hue (smoothT Real.sqrt Real.log 1 (escapeLoop 2 1 0 0 : Iter ℝ).i
          (escapeLoop 2 1 0 0 : Iter ℝ).zr2 (escapeLoop 2 1 0 0 : Iter ℝ).zi2))
        (saturation ℝ)
        (value (smoothT Real.sqrt Real.log 1 (escapeLoop 2 1 0 0 : Iter ℝ).i
          (escapeLoop 2 1 0 0 : Iter ℝ).zr2 (escapeLoop 2 1 0 0 : Iter ℝ).zi2))).1 * 255.0 =
      280.5 ∧
    ¬ ((hsvComponents
        (hue (smoothT Real.sqrt Real.log 1 (escapeLoop 2 1 0 0 : Iter ℝ).i
          (escapeLoop 2 1 0 0 : Iter ℝ).zr2 (escapeLoop 2 1 0 0 : Iter ℝ).zi2))
        (saturation ℝ)
        (value (smoothT Real.sqrt Real.log 1 (escapeLoop 2 1 0 0 : Iter ℝ).i
          (escapeLoop 2 1 0 0 : Iter ℝ).zr2 (escapeLoop 2 1 0 0 : Iter ℝ).zi2))).1 * 255.0 <
      256) := by
  have hlt : (escapeLoop 2 1 0 0 : Iter ℝ).i < 1 := by
    rw [escapeLoop_corner_real.1]
    exact Nat.zero_lt_one
  obtain ⟨-, h2, -, hlog, hl2, hM, -⟩ :=
    logarithms_inside_domain 2 1 0 0 (by decide) (by decide) (by decide) (by decide) hlt
  refine ⟨hlt, h2, hlog, hl2, hM, ?_, ?_, ?_⟩
  · unfold pixel
    rw [colour_escaped Real.sqrt Real.log 1 _ hlt]
    rfl
  · rw [smoothT_corner_real, hsvComponents_at_one]
    norm_num
  · rw [smoothT_corner_real, hsvComponents_at_one]
    norm_num

end QuantisationClaim

/-! ## The special values at `N = 1` -/

namespace Ieee

section SpecialValueProofs

variable {α : Type} [LinearOrderedField α]

theorem fin_add_fin (a b : α) : Dbl.fin a + Dbl.fin b = Dbl.fin (a + b) := rfl

theorem fin_sub_fin (a b : α) : Dbl.fin a - Dbl.fin b = Dbl.fin (a - b) := by
  show Dbl.fin (a + -b) = Dbl.fin (a - b)
  rw [sub_eq_add_neg]

theorem fin_mul_fin (a b : α) : Dbl.fin a * Dbl.fin b = Dbl.fin (a * b) := rfl

theorem fin_div_fin (a b : α) (hb : b ≠ 0) : Dbl.fin a / Dbl.fin b = Dbl.fin (a / b) := by
  show Dbl.div (Dbl.fin a) (Dbl.fin b) = Dbl.fin (a / b)
  simp only [Dbl.div, if_neg hb]

theorem nan_add (x : Dbl α) : Dbl.nan + x = Dbl.nan := by
  cases x <;> rfl

theorem add_nan (x : Dbl α) : x + Dbl.nan = Dbl.nan := by
  cases x <;> rfl

theorem sub_nan (x : Dbl α) : x - Dbl.nan = Dbl.nan := by
  cases x <;> rfl

theorem nan_sub (x : Dbl α) : Dbl.nan - x = Dbl.nan := by
  cases x <;> rfl

theorem nan_mul (x : Dbl α) : Dbl.nan * x = Dbl.nan := by
  cases x <;> rfl

theorem mul_nan (x : Dbl α) : x * Dbl.nan = Dbl.nan := by
  cases x <;> rfl

theorem nan_div (x : Dbl α) : Dbl.nan / x = Dbl.nan := by
  cases x <;> rfl

theorem nan_lt (x : Dbl α) : Dbl.lt Dbl.nan x = false := by
  cases x <;> rfl

theorem lt_nan (x : Dbl α) : Dbl.lt x Dbl.nan = false := by
  cases x <;> rfl

theorem nan_le (x : Dbl α) : Dbl.le Dbl.nan x = false := by
  cases x <;> rfl

theorem le_nan (x : Dbl α) : Dbl.le x Dbl.nan = false := by
  cases x <;> rfl

/-- Lines 111–112 at `N = 1`: `3.2 / 0` is `+inf`. -/
theorem dx_size_one : (dx 1 : Dbl α) = Dbl.pinf ∧ (dy 1 : Dbl α) = Dbl.pinf := by
  have hx : (0 : α) < xmax α - xmin α := by
    unfold xmax xmin
    norm_num
  have hy : (0 : α) < ymax α - ymin α := by
    unfold ymax ymin
    norm_num
  have hz : ((((1 : ℕ) : ℤ) - 1 : ℤ) : α) = 0 := by norm_num
  unfold dx dy
  rw [fin_sub_fin, fin_sub_fin, hz]
  constructor
  · show Dbl.div (Dbl.fin (xmax α - xmin α)) (Dbl.fin 0) = Dbl.pinf
    simp only [Dbl.div, if_pos hx, if_true]
  · show Dbl.div (Dbl.fin (ymax α - ymin α)) (Dbl.fin 0) = Dbl.pinf
    simp only [Dbl.div, if_pos hy, if_true]

/-- `0 * inf` is NaN. -/
theorem zero_mul_pinf : Dbl.fin (0 : α) * Dbl.pinf = Dbl.nan := by
  show Dbl.mul (Dbl.fin (0 : α)) Dbl.pinf = Dbl.nan
  simp only [Dbl.mul, lt_self_iff_false, if_false]

/-- Lines 122–130 at `N = 1`: pixel `(0, 0)` starts with NaN in all four
variables. -/
theorem start_size_one :
    (start 1 0 0 : Iter α) =
      { zr := Dbl.nan, zi := Dbl.nan, zr2 := Dbl.nan, zi2 := Dbl.nan, i := 0 } := by
  simp only [start, dx_size_one.1, dx_size_one.2, Nat.cast_zero, zero_mul_pinf, sub_nan,
    add_nan, nan_mul]

/-- A loop whose test is false on entry makes no pass. -/
theorem whileLoop_of_not_loopCond (M fuel : ℕ) (s : Iter α) (h : ¬ loopCond M s) :
    whileLoop M fuel s = s := by
  cases fuel with
  | zero => rfl
  | succ fuel => simp only [whileLoop, if_neg h]

/-- Lines 132–139 at `N = 1`: `NaN <= 4.0` is false, the loop makes no pass and
exits with `i = 0` and NaN in `zr2` and `zi2`. -/
theorem escapeLoop_size_one (M : ℕ) :
    (escapeLoop 1 M 0 0 : Iter α) =
      { zr := Dbl.nan, zi := Dbl.nan, zr2 := Dbl.nan, zi2 := Dbl.nan, i := 0 } := by
  unfold escapeLoop
  rw [start_size_one]
  apply whileLoop_of_not_loopCond
  intro h
  have h2 := h.2
  simp only [nan_add, nan_le] at h2
  exact Bool.noConfusion h2

/-- Lines 150–151 on NaN: `nu` is NaN. -/
theorem smoothNu_nan (sqrt log : α → α) (i : ℕ) :
    smoothNu sqrt log i (Dbl.nan : Dbl α) Dbl.nan = Dbl.nan := by
  simp only [smoothNu, nan_add, Dbl.sqrt, Dbl.log, nan_mul, sub_nan]

/-- Lines 153–154 on NaN: both tests are false and `t` stays NaN. -/
theorem clampT_nan : clampT (Dbl.nan : Dbl α) = Dbl.nan := by
  simp only [clampT, nan_lt, lt_nan, Bool.false_eq_true, if_false]

/-- Lines 152–154 on NaN. -/
theorem smoothT_nan (sqrt log : α → α) (M i : ℕ) :
    smoothT sqrt log M i (Dbl.nan : Dbl α) Dbl.nan = Dbl.nan := by
  simp only [smoothT, smoothNu_nan, nan_div, clampT_nan]

/-- On finite values the clamps are those of the finite-value model. -/
theorem clampT_fin (t : α) : clampT (Dbl.fin t) = Dbl.fin (Julia.clampT t) := by
  unfold clampT Julia.clampT
  by_cases h0 : t < 0.0
  · by_cases h1 : (0.0 : α) > 1.0
    · simp [Dbl.lt, h0, h1]
    · simp [Dbl.lt, h0, h1]
  · by_cases h1 : t > 1.0
    · simp [Dbl.lt, h0, h1]
    · simp [Dbl.lt, h0, h1]

/-- For `N ≥ 2` the step sizes are finite and are those of the finite-value
model. -/
theorem dx_of_two_le (N : ℕ) (hN : 2 ≤ N) :
    (dx N : Dbl α) = Dbl.fin (Julia.dx α N) ∧ (dy N : Dbl α) = Dbl.fin (Julia.dy α N) := by
  have h1 : (1 : α) < (N : α) := by
    have : (1 : ℕ) < N := hN
    exact_mod_cast this
  have hne : ((((N : ℤ) - 1 : ℤ) : ℤ) : α) ≠ 0 := by
    push_cast
    linarith
  constructor
  · unfold dx Julia.dx
    rw [fin_sub_fin, fin_div_fin _ _ hne]
  · unfold dy Julia.dy
    rw [fin_sub_fin, fin_div_fin _ _ hne]

/-- For `N ≥ 2` the loop starts on the finite values of the finite-value
model. -/
theorem start_of_two_le (N x y : ℕ) (hN : 2 ≤ N) :
    (start N x y : Iter α) = Iter.ofFinite (Julia.start N x y) := by
  simp only [start, Julia.start, Iter.ofFinite, (dx_of_two_le N hN).1, (dx_of_two_le N hN).2,
    fin_mul_fin, fin_sub_fin, fin_add_fin]

theorem loopBody_ofFinite (s : Julia.Iter α) :
    loopBody (Iter.ofFinite s) = Iter.ofFinite (Julia.loopBody s) := by
  simp only [loopBody, Julia.loopBody, Iter.ofFinite, fin_mul_fin, fin_sub_fin, fin_add_fin]

theorem loopCond_ofFinite (M : ℕ) (s : Julia.Iter α) :
    loopCond M (Iter.ofFinite s) ↔ Julia.loopCond M s := by
  simp only [loopCond, Julia.loopCond, Iter.ofFinite, fin_add_fin, Dbl.le, decide_eq_true_eq]

theorem whileLoop_ofFinite (M fuel : ℕ) (s : Julia.Iter α) :
    whileLoop M fuel (Iter.ofFinite s) = Iter.ofFinite (Julia.whileLoop M fuel s) := by
  induction fuel generalizing s with
  | zero => rfl
  | succ fuel ih =>
    by_cases hc : Julia.loopCond M s
    · simp only [whileLoop, Julia.whileLoop, if_pos hc, if_pos ((loopCond_ofFinite M s).2 hc),
        loopBody_ofFinite, ih]
    · simp only [whileLoop, Julia.whileLoop, if_neg hc,
        if_neg (fun h => hc ((loopCond_ofFinite M s).1 h))]

/-- For `N ≥ 2` the escape loop on `double`s stays finite and is the loop of
the finite-value model. -/
theorem escapeLoop_of_two_le (N M x y : ℕ) (hN : 2 ≤ N) :
    (escapeLoop N M x y : Iter α) = Iter.ofFinite (Julia.escapeLoop N M x y) := by
  unfold escapeLoop Julia.escapeLoop
  rw [start_of_two_le N x y hN, whileLoop_ofFinite]

end SpecialValueProofs

section SpecialValueColour

variable {α : Type} [LinearOrderedField α] [FloorRing α]

/-- Lines 156 and 158 on NaN. -/
theorem hue_value_nan :
    hue (Dbl.nan : Dbl α) = Dbl.nan ∧ value (Dbl.nan : Dbl α) = Dbl.nan := by
  constructor
  · simp only [hue, mul_nan, add_nan]
    rfl
  · simp only [value, mul_nan, add_nan]

/-- C6, the code at `N = 1` (`argv[1]` is `1`, `M` defaults to 1024), pixel
`(0, 0)`: the escaped branch runs with `nu / M` NaN; both tests of lines
153–154 are false on NaN, so the `t` passed on is NaN and neither `0 <= t` nor
`t <= 1` holds; the hue is NaN, not below 1; `floor(h * 6.0)` is NaN, and the
`switch` selector `(int)i` is the undefined conversion of NaN. -/
theorem clamps_pass_nan_at_size_one (sqrt log : α → α) :
    ¬ (escapeLoop 1 1024 0 0 : Iter α).i ≥ 1024 ∧
    smoothNu sqrt log (escapeLoop 1 1024 0 0 : Iter α).i
        (escapeLoop 1 1024 0 0 : Iter α).zr2 (escapeLoop 1 1024 0 0 : Iter α).zi2 /
      Dbl.fin ((1024 : ℕ) : α) = Dbl.nan ∧
    clampT (Dbl.nan : Dbl α) = Dbl.nan ∧
    smoothT sqrt log 1024 (escapeLoop 1 1024 0 0 : Iter α).i
      (escapeLoop 1 1024 0 0 : Iter α).zr2 (escapeLoop 1 1024 0 0 : Iter α).zi2 = Dbl.nan ∧
    Dbl.le (Dbl.fin 0)
      (smoothT sqrt log 1024 (escapeLoop 1 1024 0 0 : Iter α).i
        (escapeLoop 1 1024 0 0 : Iter α).zr2 (escapeLoop 1 1024 0 0 : Iter α).zi2) = false ∧
    Dbl.le
      (smoothT sqrt log 1024 (escapeLoop 1 1024 0 0 : Iter α).i
        (escapeLoop 1 1024 0 0 : Iter α).zr2 (escapeLoop 1 1024 0 0 : Iter α).zi2)
      (Dbl.fin 1) = false ∧
    hue (smoothT sqrt log 1024 (escapeLoop 1 1024 0 0 : Iter α).i
      (escapeLoop 1 1024 0 0 : Iter α).zr2 (escapeLoop 1 1024 0 0 : Iter α).zi2) = Dbl.nan ∧
    Dbl.lt (hue (smoothT sqrt log 1024 (escapeLoop 1 1024 0 0 : Iter α).i
      (escapeLoop 1 1024 0 0 : Iter α).zr2 (escapeLoop 1 1024 0 0 : Iter α).zi2))
      (Dbl.fin 1) = false ∧
    Dbl.floor (hue (smoothT sqrt log 1024 (escapeLoop 1 1024 0 0 : Iter α).i
      (escapeLoop 1 1024 0 0 : Iter α).zr2 (escapeLoop 1 1024 0 0 : Iter α).zi2) *
        Dbl.fin 6.0) = Dbl.nan ∧
    (∀ undefInt : ℤ,
      Dbl.toInt undefInt (Dbl.floor (hue (smoothT sqrt log 1024 (escapeLoop 1 1024 0 0 : Iter α).i
        (escapeLoop 1 1024 0 0 : Iter α).zr2 (escapeLoop 1 1024 0 0 : Iter α).zi2) *
          Dbl.fin 6.0)) = undefInt) := by
  have he := @escapeLoop_size_one α _ 1024
  have ht : smoothT sqrt log 1024 (escapeLoop 1 1024 0 0 : Iter α).i
      (escapeLoop 1 1024 0 0 : Iter α).zr2 (escapeLoop 1 1024 0 0 : Iter α).zi2 = Dbl.nan := by
    rw [he]
    exact smoothT_nan sqrt log 1024 0
  rw [ht, hue_value_nan.1, nan_mul]
  refine ⟨by rw [he]; norm_num, ?_, clampT_nan, rfl, le_nan _, nan_le _, rfl, nan_lt _,
    rfl, fun _ => rfl⟩
  rw [he]
  simp only [smoothNu_nan, nan_div]

end SpecialValueColour

end Ieee

/-! ## The claims at concrete inputs -/

section Witnesses

/-- Pixel `(0, 0)` of the 2 × 2 image starts outside the escape circle: the
loop makes no pass. -/
theorem escapeLoop_corner : (escapeLoop 2 1 0 0 : Iter ℚ).i = 0 := by
  simp [escapeLoop, whileLoop, loopCond, start, xmin, ymax, dx, dy, xmax, ymin, escape2]
  norm_num

/-- Pixel `(1, 1)` of the 4 × 4 image with cap `M = 1`: the loop makes its one
pass. -/
theorem escapeLoop_inner : (escapeLoop 4 1 1 1 : Iter ℚ).i = 1 := by
  simp [escapeLoop, whileLoop, loopCond, loopBody, start, xmin, ymax, dx, dy, xmax, ymin,
    escape2]
  norm_num

theorem escape_count_is_first_escape_index_witness :
    (2 ≤ 2 ∧ 1 ≤ 1 ∧ 0 < 2 ∧ 0 < 2) ∧
    (IsLeast {k | k < 1 ∧ 4 < normSq (specOrbit (specSample 2 0 0 : ℚ × ℚ) k)}
        (escapeLoop 2 1 0 0 : Iter ℚ).i ∨
      ((escapeLoop 2 1 0 0 : Iter ℚ).i = 1 ∧
        ∀ k, k < 1 → normSq (specOrbit (specSample 2 0 0 : ℚ × ℚ) k) ≤ 4)) :=
  ⟨⟨by decide, by decide, by decide, by decide⟩,
    (escape_count_is_first_escape_index 2 1 0 0 (by decide) (by decide) (by decide)
      (by decide)).2.2.2.2⟩

theorem count_bounds_and_escape_magnitude_witness :
    (2 ≤ 2 ∧ 1 ≤ 1 ∧ 0 < 2 ∧ 0 < 2) ∧
    (¬ (escapeLoop 2 1 0 0 : Iter ℚ).i ≥ 1 →
      (escapeLoop 2 1 0 0 : Iter ℚ).i < 1 ∧
      escape2 ℚ < (escapeLoop 2 1 0 0 : Iter ℚ).zr2 + (escapeLoop 2 1 0 0 : Iter ℚ).zi2 ∧
      4 < (escapeLoop 2 1 0 0 : Iter ℚ).zr2 + (escapeLoop 2 1 0 0 : Iter ℚ).zi2) :=
  ⟨⟨by decide, by decide, by decide, by decide⟩,
    (count_bounds_and_escape_magnitude (fun v : ℚ => v) (fun v : ℚ => v) 2 1 0 0 (by decide)
      (by decide) (by decide) (by decide)).2.2.1⟩

theorem alpha_byte_is_255_witness :
    (1 ≤ 2 ∧ 1 ≤ 1 ∧ 1 < 2 ∧ 0 < 2) ∧
    (render (fun v : ℚ => v) (fun v : ℚ => v) 2 1)[pixelOffset 2 1 0 + 3]? = some (some 255) :=
  ⟨⟨by decide, by decide, by decide, by decide⟩,
    (alpha_byte_is_255 (fun v : ℚ => v) (fun v : ℚ => v) 2 1 1 0 (by decide) (by decide)
      (by decide) (by decide)).2.2.2⟩

theorem interior_pixel_is_black_witness :
    (1 < 4 ∧ 1 < 4 ∧ (escapeLoop 4 1 1 1 : Iter ℚ).i = 1) ∧
    (pixel (fun v : ℚ => v) (fun v : ℚ => v) 4 1 1 1).r = 0 ∧
    (pixel (fun v : ℚ => v) (fun v : ℚ => v) 4 1 1 1).g = 0 ∧
    (pixel (fun v : ℚ => v) (fun v : ℚ => v) 4 1 1 1).b = 0 :=
  ⟨⟨by decide, by decide, escapeLoop_inner⟩,
    (interior_pixel_is_black (fun v : ℚ => v) (fun v : ℚ => v) 4 1 1 1 (by decide) (by decide)
      escapeLoop_inner).2.1,
    (interior_pixel_is_black (fun v : ℚ => v) (fun v : ℚ => v) 4 1 1 1 (by decide) (by decide)
      escapeLoop_inner).2.2.1,
    (interior_pixel_is_black (fun v : ℚ => v) (fun v : ℚ => v) 4 1 1 1 (by decide) (by decide)
      escapeLoop_inner).2.2.2.1⟩

theorem escaped_pixel_is_not_black_witness :
    ((0 : ℚ) ≤ 1 / 2 ∧ (1 / 2 : ℚ) ≤ 1 ∧ (escapeLoop 2 1 0 0 : Iter ℚ).i < 1) ∧
    hsv_to_rgb (hue (1 / 2 : ℚ)) 0.85 (0.15 + 0.95 * (1 / 2 : ℚ)) ≠ (0, 0, 0) ∧
    ¬ ((pixel (fun v : ℚ => v) (fun v : ℚ => v) 2 1 0 0).r = 0 ∧
        (pixel (fun v : ℚ => v) (fun v : ℚ => v) 2 1 0 0).g = 0 ∧
        (pixel (fun v : ℚ => v) (fun v : ℚ => v) 2 1 0 0).b = 0) :=
  ⟨⟨by norm_num, by norm_num, by rw [escapeLoop_corner]; decide⟩,
    (escaped_pixel_is_not_black (1 / 2 : ℚ) (by norm_num) (by norm_num) (fun v : ℚ => v)
      (fun v : ℚ => v) 2 1 0 0 (by rw [escapeLoop_corner]; decide)).2.1,
    (escaped_pixel_is_not_black (1 / 2 : ℚ) (by norm_num) (by norm_num) (fun v : ℚ => v)
      (fun v : ℚ => v) 2 1 0 0 (by rw [escapeLoop_corner]; decide)).2.2.2.2⟩

theorem full_coverage_without_overlap_witness :
    1 ≤ 2 ∧
    (∀ b, b < 4 * 2 * 2 →
      ((renderStores (fun v : ℚ => v) (fun v : ℚ => v) 2 1).map Store.addr).count b = 1) ∧
    (render (fun v : ℚ => v) (fun v : ℚ => v) 2 1).length = 4 * 2 * 2 :=
  ⟨by decide,
    (full_coverage_without_overlap (fun v : ℚ => v) (fun v : ℚ => v) 2 1 (by decide)).2.2.2.2.2.1,
    (full_coverage_without_overlap (fun v : ℚ => v) (fun v : ℚ => v) 2 1
      (by decide)).2.2.2.2.2.2.2.1⟩

theorem coordinate_mapping_endpoints_witness :
    2 ≤ 5 ∧ (start 5 0 0 : Iter ℚ).zr = -1.6 ∧ (start 5 0 0 : Iter ℚ).zi = 1.6 ∧
    (start 5 (5 - 1) (5 - 1) : Iter ℚ).zr = 1.6 ∧
    (start 5 (5 - 1) (5 - 1) : Iter ℚ).zi = -1.6 :=
  ⟨by decide, (coordinate_mapping_endpoints 5 (by decide)).1,
    (coordinate_mapping_endpoints 5 (by decide)).2.1,
    (coordinate_mapping_endpoints 5 (by decide)).2.2.1,
    (coordinate_mapping_endpoints 5 (by decide)).2.2.2.1⟩

theorem invalid_dimensions_rejected_witness :
    (0 : ℤ) ≤ 0 ∧
    main (fun v : ℚ => v) (fun v : ℚ => v) (some 0) (some 50) true true =
      { status := 1, trace := [Event.invalidMessage] } :=
  ⟨le_refl 0,
    (invalid_dimensions_rejected (fun v : ℚ => v) (fun v : ℚ => v) none (some 50) true true).1 0
      (le_refl 0)⟩

theorem render_is_deterministic_witness :
    ((List.replicate 16 (some 7) : Buffer).length = 2 * 2 * 4 ∧
      (List.replicate 16 none : Buffer).length = 2 * 2 * 4 ∧
      (visits 2).reverse.Perm (visits 2) ∧
      (renderStores (fun v : ℚ => v) (fun v : ℚ => v) 2 1).reverse.Perm
        (renderStores (fun v : ℚ => v) (fun v : ℚ => v) 2 1)) ∧
    (renderStores (fun v : ℚ => v) (fun v : ℚ => v) 2 1).foldl applyStore
        (List.replicate 16 (some 7)) =
      (renderStores (fun v : ℚ => v) (fun v : ℚ => v) 2 1).foldl applyStore
        (List.replicate 16 none) ∧
    (renderStores (fun v : ℚ => v) (fun v : ℚ => v) 2 1).reverse.foldl applyStore
        (List.replicate 16 (some 7)) =
      render (fun v : ℚ => v) (fun v : ℚ => v) 2 1 :=
  ⟨⟨by simp, by simp, List.reverse_perm _, List.reverse_perm _⟩,
    (render_is_deterministic (fun v : ℚ => v) (fun v : ℚ => v) 2 1
      (List.replicate 16 (some 7)) (List.replicate 16 none) (by simp) (by simp)
      (visits 2).reverse (List.reverse_perm _)
      (renderStores (fun v : ℚ => v) (fun v : ℚ => v) 2 1).reverse (List.reverse_perm _)).1,
    (render_is_deterministic (fun v : ℚ => v) (fun v : ℚ => v) 2 1
      (List.replicate 16 (some 7)) (List.replicate 16 none) (by simp) (by simp)
      (visits 2).reverse (List.reverse_perm _)
      (renderStores (fun v : ℚ => v) (fun v : ℚ => v) 2 1).reverse
      (List.reverse_perm _)).2.2.2.1⟩

theorem logarithms_inside_domain_witness :
    (2 ≤ 2 ∧ 1 ≤ 1 ∧ 0 < 2 ∧ 0 < 2 ∧ (escapeLoop 2 1 0 0 : Iter ℝ).i < 1) ∧
    2 < Real.sqrt ((escapeLoop 2 1 0 0 : Iter ℝ).zr2 + (escapeLoop 2 1 0 0 : Iter ℝ).zi2) ∧
    0 < Real.log
      (Real.sqrt ((escapeLoop 2 1 0 0 : Iter ℝ).zr2 + (escapeLoop 2 1 0 0 : Iter ℝ).zi2)) :=
  ⟨⟨by decide, by decide, by decide, by decide,
      by rw [escapeLoop_corner_real.1]; exact Nat.zero_lt_one⟩,
    (logarithms_inside_domain 2 1 0 0 (by decide) (by decide) (by decide) (by decide)
      (by rw [escapeLoop_corner_real.1]; exact Nat.zero_lt_one)).2.1,
    (logarithms_inside_domain 2 1 0 0 (by decide) (by decide) (by decide) (by decide)
      (by rw [escapeLoop_corner_real.1]; exact Nat.zero_lt_one)).2.2.2.1⟩

theorem bounded_work_witness :
    (1 ≤ 2 ∧ 1 ≤ 1) ∧ renderPasses ℚ 2 1 ≤ 2 * 2 * 1 :=
  ⟨⟨by decide, by decide⟩, (bounded_work 2 1 (by decide) (by decide)).2.2⟩

theorem bounded_intermediate_values_witness :
    (2 ≤ 2 ∧ 1 ≤ 1 ∧ 0 < 2 ∧ 0 < 2) ∧
    Real.sqrt ((escapeLoop 2 1 0 0 : Iter ℝ).zr ^ 2 + (escapeLoop 2 1 0 0 : Iter ℝ).zi ^ 2) ≤
      4 + Real.sqrt 0.52 :=
  ⟨⟨by decide, by decide, by decide, by decide⟩,
    (bounded_intermediate_values 2 1 0 0 (by decide) (by decide) (by decide)
      (by decide)).2.2.1⟩

theorem hsv_six_sector_conversion_witness :
    ((0 : ℚ) ≤ 1 / 2 ∧ (1 / 2 : ℚ) < 1 ∧ (0 : ℚ) ≤ 0.85 ∧ (0.85 : ℚ) ≤ 1 ∧ (0 : ℚ) ≤ 1 / 2) ∧
    (0 ≤ ⌊6 * (1 / 2 : ℚ)⌋ ∧ ⌊6 * (1 / 2 : ℚ)⌋ ≤ 5) ∧
    max (hsvComponents (1 / 2 : ℚ) 0.85 (1 / 2)).1
      (max (hsvComponents (1 / 2 : ℚ) 0.85 (1 / 2)).2.1
        (hsvComponents (1 / 2 : ℚ) 0.85 (1 / 2)).2.2) = 1 / 2 ∧
    min (hsvComponents (1 / 2 : ℚ) 0.85 (1 / 2)).1
      (min (hsvComponents (1 / 2 : ℚ) 0.85 (1 / 2)).2.1
        (hsvComponents (1 / 2 : ℚ) 0.85 (1 / 2)).2.2) = 1 / 2 * (1 - 0.85) :=
  ⟨⟨by norm_num, by norm_num, by norm_num, by norm_num, by norm_num⟩,
    (hsv_six_sector_conversion (1 / 2 : ℚ) 0.85 (1 / 2)
      (6 * (1 / 2) - ⌊6 * (1 / 2 : ℚ)⌋) (1 / 2 * (1 - 0.85))
      (1 / 2 * (1 - (6 * (1 / 2) - ⌊6 * (1 / 2 : ℚ)⌋) * 0.85))
      (1 / 2 * (1 - (1 - (6 * (1 / 2) - ⌊6 * (1 / 2 : ℚ)⌋)) * 0.85))
      (by norm_num) (by norm_num) (by norm_num) (by norm_num) (by norm_num)
      rfl rfl rfl rfl).1,
    (hsv_six_sector_conversion (1 / 2 : ℚ) 0.85 (1 / 2)
      (6 * (1 / 2) - ⌊6 * (1 / 2 : ℚ)⌋) (1 / 2 * (1 - 0.85))
      (1 / 2 * (1 - (6 * (1 / 2) - ⌊6 * (1 / 2 : ℚ)⌋) * 0.85))
      (1 / 2 * (1 - (1 - (6 * (1 / 2) - ⌊6 * (1 / 2 : ℚ)⌋)) * 0.85))
      (by norm_num) (by norm_num) (by norm_num) (by norm_num) (by norm_num)
      rfl rfl rfl rfl).2.2.2.2.2.2.2.1,
    (hsv_six_sector_conversion (1 / 2 : ℚ) 0.85 (1 / 2)
      (6 * (1 / 2) - ⌊6 * (1 / 2 : ℚ)⌋) (1 / 2 * (1 - 0.85))
      (1 / 2 * (1 - (6 * (1 / 2) - ⌊6 * (1 / 2 : ℚ)⌋) * 0.85))
      (1 / 2 * (1 - (1 - (6 * (1 / 2) - ⌊6 * (1 / 2 : ℚ)⌋)) * 0.85))
      (by norm_num) (by norm_num) (by norm_num) (by norm_num) (by norm_num)
      rfl rfl rfl rfl).2.2.2.2.2.2.2.2.1⟩

theorem point_symmetry_witness :
    (2 ≤ 4 ∧ 1 ≤ 1 ∧ 1 < 4 ∧ 0 < 4) ∧
    (escapeLoop 4 1 (4 - 1 - 1) (4 - 1 - 0) : Iter ℚ).i = (escapeLoop 4 1 1 0 : Iter ℚ).i ∧
    pixel (fun v : ℚ => v) (fun v : ℚ => v) 4 1 (4 - 1 - 1) (4 - 1 - 0) =
      pixel (fun v : ℚ => v) (fun v : ℚ => v) 4 1 1 0 :=
  ⟨⟨by decide, by decide, by decide, by decide⟩,
    (point_symmetry (fun v : ℚ => v) (fun v : ℚ => v) 4 1 1 0 (by decide) (by decide)
      (by decide) (by decide)).2.1,
    (point_symmetry (fun v : ℚ => v) (fun v : ℚ => v) 4 1 1 0 (by decide) (by decide)
      (by decide) (by decide)).2.2.2.1⟩

theorem lower_clamp_never_active_witness :
    (2 ≤ 2 ∧ 1 ≤ 1 ∧ 0 < 2 ∧ 0 < 2 ∧ (escapeLoop 2 1 0 0 : Iter ℝ).i < 1) ∧
    0 < smoothNu Real.sqrt Real.log (escapeLoop 2 1 0 0 : Iter ℝ).i
        (escapeLoop 2 1 0 0 : Iter ℝ).zr2 (escapeLoop 2 1 0 0 : Iter ℝ).zi2 ∧
    ¬ smoothNu Real.sqrt Real.log (escapeLoop 2 1 0 0 : Iter ℝ).i
        (escapeLoop 2 1 0 0 : Iter ℝ).zr2 (escapeLoop 2 1 0 0 : Iter ℝ).zi2 / ((1 : ℕ) : ℝ) <
      0.0 :=
  ⟨⟨by decide, by decide, by decide, by decide,
      by rw [escapeLoop_corner_real.1]; exact Nat.zero_lt_one⟩,
    (lower_clamp_never_active 2 1 0 0 (by decide) (by decide) (by decide) (by decide)
      (by rw [escapeLoop_corner_real.1]; exact Nat.zero_lt_one)).2.2.1,
    (lower_clamp_never_active 2 1 0 0 (by decide) (by decide) (by decide) (by decide)
      (by rw [escapeLoop_corner_real.1]; exact Nat.zero_lt_one)).2.2.2.2.1⟩

end Witnesses

end Julia
